import Mathlib

/-!
Verification of the lease-consumption simulator (Go repository
sherine-k/lease-consumption-simlator).

Shallow embedding conventions:
* `time.Time` and `time.Duration` values are embedded as `Int`, measured in
  minutes, with the simulation window start at 0 (the engine only ever
  compares and adds times, so the choice of origin and unit is free).
* A Go `*config.JobInstance` is embedded as a value of `JobInstance`
  carrying an `id : Nat` that stands for the pointer identity (the
  generation index of the instance); the fields mirror the Go struct.
* The `Message string` field of `Event` is embedded as the inductive
  `EventMsg`: each constructor corresponds to one distinct
  `fmt.Sprintf` format string in the source, together with the numeric
  arguments that the format receives (job names are irrelevant to all
  claims and are dropped).
* Slices manipulated in place in Go become functional `List`s threaded
  through an explicit state record `SimState`; the engine loop becomes a
  fuel-indexed iteration of a pure `tick` function (one fuel unit per
  5-minute step of `simulateLeaseUsage`).
-/

namespace LeaseSim

/-- Embeds the relevant part of `config.Job` (`pkg/config/types.go`):
only `Duration` is read by the engine. -/
structure Job where
  duration : Int
  deriving DecidableEq

/-- Embeds `config.JobInstance` (`pkg/config/types.go`).  `id` models the
pointer identity of the Go instance. -/
structure JobInstance where
  id : Nat
  job : Job
  startTime : Int
  endTime : Int
  leaseAcquired : Bool := false
  leaseWaitTime : Int := 0
  timedOut : Bool := false
  deriving DecidableEq

/-- Embeds `EventType` (`pkg/simulation/events.go`). -/
inductive EventType where
  | leaseAcquired
  | leaseReleased
  | jobWaiting
  | jobTimeout
  | maxExceeded
  deriving DecidableEq

/-- Embeds the `Message` field: one constructor per `fmt.Sprintf` format
string appearing in `simulateLeaseUsage` (`pkg/simulation/simulator.go`),
with the numeric arguments of the format. -/
inductive EventMsg where
  | acquired
  | maxExceededMsg (cur max : Int)
  | waitingMsg
  | releasedMsg
  | acquiredAfterWait (waited : Int)
  | waitTimeoutMsg (waited : Int)
  | execTimeoutMsg (timeout : Int)
  deriving DecidableEq

/-- Embeds `simulation.Event` (`pkg/simulation/events.go`). -/
structure Event where
  time : Int
  type : EventType
  jobId : Nat
  activeLeases : Int
  msg : EventMsg
  isWarning : Bool := false
  deriving DecidableEq

/-- Embeds the scalar configuration read by the engine
(`config.Config`, `pkg/config/types.go`); the simulation window is
`[0, simulationEnd)` in minutes. -/
structure Config where
  maxActiveLeases : Int
  jobTimeoutDuration : Int
  leaseWaitTimeout : Int
  simulationEnd : Int
  deriving DecidableEq

/-- The mutable state of `simulateLeaseUsage`
(`pkg/simulation/simulator.go`, lines 142-286): the not yet reached
suffix of the sorted instance slice (`jobInstances[jobIndex:]`), the
`activeJobs` and `waitingJobs` slices, the `activeLeases` counter and
the event log accumulated through `s.addEvent`. -/
structure SimState where
  pending : List JobInstance
  active : List JobInstance
  waiting : List JobInstance
  activeLeases : Int
  events : List Event
  deriving DecidableEq

/-- One iteration of the admission loop (`simulator.go` lines 153-199):
the instance `j` has `startTime ≤ currentTime` and either acquires a
lease (`activeLeases++`, appended to `activeJobs`, `LeaseAcquired`
event, plus the guarded `MaxExceeded` check) or is appended to the tail
of `waitingJobs` with `LeaseWaitTime = 0` and a warning event. -/
def admitOne (cfg : Config) (t : Int) (s : SimState) (j : JobInstance) : SimState :=
  if cfg.maxActiveLeases - s.activeLeases > 0 then
    let a := s.activeLeases + 1
    let acqEv : Event :=
      { time := t, type := .leaseAcquired, jobId := j.id, activeLeases := a,
        msg := .acquired }
    let evs :=
      if a > cfg.maxActiveLeases then
        [acqEv,
         { time := t, type := .maxExceeded, jobId := j.id, activeLeases := a,
           msg := .maxExceededMsg a cfg.maxActiveLeases, isWarning := true }]
      else [acqEv]
    { s with
      activeLeases := a,
      active := s.active ++ [{ j with leaseAcquired := true }],
      events := s.events ++ evs }
  else
    { s with
      waiting := s.waiting ++ [{ j with leaseWaitTime := 0 }],
      events := s.events ++
        [{ time := t, type := .jobWaiting, jobId := j.id,
           activeLeases := s.activeLeases, msg := .waitingMsg,
           isWarning := true }] }

/-- The admission phase (`simulator.go` lines 153-199): the inner `for`
loop advances `jobIndex` over the prefix of the remaining instances
whose `StartTime` is at or before `currentTime` and feeds each to the
admission decision. -/
def admissionPhase (cfg : Config) (t : Int) (s : SimState) : SimState :=
  let arriving := s.pending.takeWhile (fun j => decide (j.startTime ≤ t))
  let rest := s.pending.dropWhile (fun j => decide (j.startTime ≤ t))
  arriving.foldl (admitOne cfg t) { s with pending := rest }

/-- One iteration of the completion loop (`simulator.go` lines 203-238).
The accumulator plays the role of `remainingJobs` (in its `active`
field) together with the shared `activeLeases`, `waitingJobs` and event
log.  A finished instance releases its lease and, if the waiting queue
is non-empty, its head is dequeued, re-timed from the current instant
(`StartTime = currentTime`, `EndTime = currentTime + duration`) and
promoted. -/
def completionStep (t : Int) (acc : SimState) (j : JobInstance) : SimState :=
  if j.endTime ≤ t then
    let a := acc.activeLeases - 1
    let relEv : Event :=
      { time := t, type := .leaseReleased, jobId := j.id, activeLeases := a,
        msg := .releasedMsg }
    match acc.waiting with
    | [] => { acc with activeLeases := a, events := acc.events ++ [relEv] }
    | w :: ws =>
      let w2 := { w with
        leaseAcquired := true, startTime := t, endTime := t + w.job.duration }
      { acc with
        activeLeases := a + 1,
        waiting := ws,
        active := acc.active ++ [w2],
        events := acc.events ++
          [relEv,
           { time := t, type := .leaseAcquired, jobId := w.id,
             activeLeases := a + 1,
             msg := .acquiredAfterWait w.leaseWaitTime }] }
  else { acc with active := acc.active ++ [j] }

/-- The completion phase (`simulator.go` lines 202-239): iterate the old
`activeJobs` slice, rebuilding it as `remainingJobs`. -/
def completionPhase (t : Int) (s : SimState) : SimState :=
  s.active.foldl (completionStep t) { s with active := [] }

/-- One iteration of the wait-timeout loop (`simulator.go` lines
243-259): add one 5-minute tick to `LeaseWaitTime`; on reaching
`LeaseWaitTimeout` the instance is dropped from the queue, marked
`TimedOut` and a warning event is emitted, otherwise it is kept. -/
def waitStep (cfg : Config) (t : Int) (acc : SimState) (j : JobInstance) : SimState :=
  let j2 := { j with leaseWaitTime := j.leaseWaitTime + 5 }
  if j2.leaseWaitTime ≥ cfg.leaseWaitTimeout then
    { acc with events := acc.events ++
        [{ time := t, type := .jobTimeout, jobId := j.id,
           activeLeases := acc.activeLeases,
           msg := .waitTimeoutMsg j2.leaseWaitTime, isWarning := true }] }
  else { acc with waiting := acc.waiting ++ [j2] }

/-- The wait-timeout phase (`simulator.go` lines 241-261): iterate the
old `waitingJobs` slice, rebuilding it as `remainingWaitingJobs`. -/
def waitTimeoutPhase (cfg : Config) (t : Int) (s : SimState) : SimState :=
  s.waiting.foldl (waitStep cfg t) { s with waiting := [] }

/-- The guard of the execution-timeout loop (`simulator.go` line 265):
`currentTime.Sub(job.StartTime) >= s.config.JobTimeoutDuration && !job.TimedOut`. -/
def execDue (cfg : Config) (t : Int) (j : JobInstance) : Prop :=
  t - j.startTime ≥ cfg.jobTimeoutDuration ∧ j.timedOut = false

instance (cfg : Config) (t : Int) (j : JobInstance) : Decidable (execDue cfg t j) := by
  unfold execDue; infer_instance

/-- One iteration of the execution-timeout loop (`simulator.go` lines
264-277): an active, not yet timed-out instance whose running time
reaches `JobTimeoutDuration` is flagged `TimedOut` and a warning event
is emitted; the instance stays in `activeJobs` and `activeLeases` is
untouched. -/
def execStep (cfg : Config) (t : Int) (acc : SimState) (j : JobInstance) : SimState :=
  if execDue cfg t j then
    { acc with
      active := acc.active ++ [{ j with timedOut := true }],
      events := acc.events ++
        [{ time := t, type := .jobTimeout, jobId := j.id,
           activeLeases := acc.activeLeases,
           msg := .execTimeoutMsg cfg.jobTimeoutDuration, isWarning := true }] }
  else { acc with active := acc.active ++ [j] }

/-- The execution-timeout phase (`simulator.go` lines 263-277). -/
def execTimeoutPhase (cfg : Config) (t : Int) (s : SimState) : SimState :=
  s.active.foldl (execStep cfg t) { s with active := [] }

/-- One 5-minute tick of `simulateLeaseUsage` (`simulator.go` lines
152-277): the four sub-phases in source order, all attributed to the
same `currentTime`. -/
def tick (cfg : Config) (t : Int) (s : SimState) : SimState :=
  execTimeoutPhase cfg t (waitTimeoutPhase cfg t (completionPhase t (admissionPhase cfg t s)))

/-- The driver loop of `simulateLeaseUsage` (`simulator.go` lines
151-285), indexed by fuel (a bound on the number of ticks).  The top
condition and the bottom `break` mirror the source exactly; each
iteration advances `currentTime` by 5 minutes. -/
def runSim (cfg : Config) : Nat → Int → SimState → SimState
  | 0, _, s => s
  | fuel + 1, t, s =>
    if t < cfg.simulationEnd ∨ s.active ≠ [] ∨ s.waiting ≠ [] then
      if (tick cfg t s).pending = [] ∧ (tick cfg t s).active = [] ∧
          (tick cfg t s).waiting = [] then tick cfg t s
      else runSim cfg fuel (t + 5) (tick cfg t s)
    else s

/-- Initial engine state for a sorted instance list (`simulator.go`
lines 143-149). -/
def initState (jobs : List JobInstance) : SimState :=
  { pending := jobs, active := [], waiting := [], activeLeases := 0, events := [] }

/-! ## Helper lemmas -/

/-- Instances are ordered by `StartTime` (the comparison `Run` sorts by,
`simulator.go` lines 53-55). -/
def leStart (a b : JobInstance) : Prop := a.startTime ≤ b.startTime

theorem takeWhile_le_eq_filter (t : Int) :
    ∀ l : List JobInstance, l.Pairwise leStart →
      l.takeWhile (fun j => decide (j.startTime ≤ t)) =
        l.filter (fun j => decide (j.startTime ≤ t)) := by
  intro l
  induction l with
  | nil => intro _; rfl
  | cons a l ih =>
    intro h
    rcases List.pairwise_cons.mp h with ⟨ha, hl⟩
    by_cases hat : a.startTime ≤ t
    · simp [List.takeWhile_cons, List.filter_cons, hat, ih hl]
    · have : ∀ b ∈ l, ¬ b.startTime ≤ t := by
        intro b hb hbt
        exact hat (le_trans (ha b hb) hbt)
      have hnil : l.filter (fun j => decide (j.startTime ≤ t)) = [] := by
        rw [List.filter_eq_nil_iff]
        intro b hb
        simp [this b hb]
      simp [List.takeWhile_cons, List.filter_cons, hat, hnil]

theorem dropWhile_le_eq_filter (t : Int) :
    ∀ l : List JobInstance, l.Pairwise leStart →
      l.dropWhile (fun j => decide (j.startTime ≤ t)) =
        l.filter (fun j => decide (¬ j.startTime ≤ t)) := by
  intro l
  induction l with
  | nil => intro _; rfl
  | cons a l ih =>
    intro h
    rcases List.pairwise_cons.mp h with ⟨ha, hl⟩
    by_cases hat : a.startTime ≤ t
    · simp [List.dropWhile_cons, List.filter_cons, hat, ih hl]
    · have hall : ∀ b ∈ l, ¬ b.startTime ≤ t := by
        intro b hb hbt
        exact hat (le_trans (ha b hb) hbt)
      have hself : l.filter (fun j => decide (¬ j.startTime ≤ t)) = l := by
        rw [List.filter_eq_self]
        intro b hb
        simpa using hall b hb
      rw [List.dropWhile_cons, if_neg (by simpa using hat),
        List.filter_cons, if_pos (by simpa using hat), hself]

/-! ## Claim C1 -/

/-- C1.  Admission rule: at every tick, every pending instance with
`startTime ≤ t` is processed (when the remaining instance list is sorted
by start time, the prefix the admission loop consumes is exactly the set
of due instances); an instance is admitted exactly when
`activeCount < maxLeases`, with `activeCount` incremented, the instance
appended to the active set with `LeaseAcquired = true` and a
`LeaseAcquired` event emitted; otherwise it is appended to the tail of
the waiting queue with its accumulated wait reset to 0 and a `Waiting`
event marked as a warning is emitted. -/
theorem claim_C1_admission (cfg : Config) (t : Int) (s : SimState) (j : JobInstance) :
    (s.activeLeases < cfg.maxActiveLeases →
      admitOne cfg t s j =
        { s with
          activeLeases := s.activeLeases + 1,
          active := s.active ++ [{ j with leaseAcquired := true }],
          events := s.events ++
            [{ time := t, type := .leaseAcquired, jobId := j.id,
               activeLeases := s.activeLeases + 1, msg := .acquired,
               isWarning := false }] }) ∧
    (¬ s.activeLeases < cfg.maxActiveLeases →
      admitOne cfg t s j =
        { s with
          waiting := s.waiting ++ [{ j with leaseWaitTime := 0 }],
          events := s.events ++
            [{ time := t, type := .jobWaiting, jobId := j.id,
               activeLeases := s.activeLeases, msg := .waitingMsg,
               isWarning := true }] }) ∧
    (s.pending.Pairwise leStart →
      admissionPhase cfg t s =
        (s.pending.filter (fun j => decide (j.startTime ≤ t))).foldl (admitOne cfg t)
          { s with pending := s.pending.filter (fun j => decide (¬ j.startTime ≤ t)) }) := by
  refine ⟨?_, ?_, ?_⟩
  · intro h
    have hc : cfg.maxActiveLeases - s.activeLeases > 0 := by omega
    have hnot : ¬ s.activeLeases + 1 > cfg.maxActiveLeases := by omega
    simp [admitOne, hc, hnot]
  · intro h
    have hc : ¬ cfg.maxActiveLeases - s.activeLeases > 0 := by omega
    simp [admitOne, hc]
  · intro h
    unfold admissionPhase
    rw [takeWhile_le_eq_filter t s.pending h, dropWhile_le_eq_filter t s.pending h]

/-- Witness for C1: concrete admission (one free lease) and concrete
queueing (pool full), plus the sorted-prefix fact on a concrete state. -/
theorem claim_C1_admission_witness :
    (admitOne ⟨2, 480, 30, 1440⟩ 0
        { pending := [], active := [], waiting := [], activeLeases := 0, events := [] }
        { id := 7, job := ⟨60⟩, startTime := 0, endTime := 60 } =
      { pending := [], waiting := [],
        activeLeases := 1,
        active := [{ id := 7, job := ⟨60⟩, startTime := 0, endTime := 60,
                     leaseAcquired := true }],
        events := [{ time := 0, type := .leaseAcquired, jobId := 7,
                     activeLeases := 1, msg := .acquired, isWarning := false }] }) ∧
    (admitOne ⟨2, 480, 30, 1440⟩ 0
        { pending := [], active := [], waiting := [], activeLeases := 2, events := [] }
        { id := 7, job := ⟨60⟩, startTime := 0, endTime := 60, leaseWaitTime := 9 } =
      { pending := [], active := [],
        activeLeases := 2,
        waiting := [{ id := 7, job := ⟨60⟩, startTime := 0, endTime := 60,
                      leaseWaitTime := 0 }],
        events := [{ time := 0, type := .jobWaiting, jobId := 7,
                     activeLeases := 2, msg := .waitingMsg, isWarning := true }] }) ∧
    (admissionPhase ⟨2, 480, 30, 1440⟩ 0
        { pending := [{ id := 3, job := ⟨60⟩, startTime := 0, endTime := 60 },
                      { id := 4, job := ⟨60⟩, startTime := 5, endTime := 65 }],
          active := [], waiting := [], activeLeases := 0, events := [] } =
      ([{ id := 3, job := ⟨60⟩, startTime := 0, endTime := 60 }] :
          List JobInstance).foldl (admitOne ⟨2, 480, 30, 1440⟩ 0)
        { pending := [{ id := 4, job := ⟨60⟩, startTime := 5, endTime := 65 }],
          active := [], waiting := [], activeLeases := 0, events := [] }) := by
  refine ⟨?_, ?_, ?_⟩
  · exact (claim_C1_admission ⟨2, 480, 30, 1440⟩ 0
      { pending := [], active := [], waiting := [], activeLeases := 0, events := [] }
      { id := 7, job := ⟨60⟩, startTime := 0, endTime := 60 }).1 (by decide)
  · exact (claim_C1_admission ⟨2, 480, 30, 1440⟩ 0
      { pending := [], active := [], waiting := [], activeLeases := 2, events := [] }
      { id := 7, job := ⟨60⟩, startTime := 0, endTime := 60, leaseWaitTime := 9 }).2.1
      (by decide)
  · have h := (claim_C1_admission ⟨2, 480, 30, 1440⟩ 0
      { pending := [{ id := 3, job := ⟨60⟩, startTime := 0, endTime := 60 },
                    { id := 4, job := ⟨60⟩, startTime := 5, endTime := 65 }],
        active := [], waiting := [], activeLeases := 0, events := [] }
      { id := 0, job := ⟨60⟩, startTime := 0, endTime := 60 }).2.2
      (by simp [leStart, List.pairwise_cons])
    simpa using h

/-! ## Claim C2 -/

/-- Closed form of the execution-timeout fold: every due instance is
flagged and produces one warning event, all other fields pass through. -/
theorem execTimeout_foldl (cfg : Config) (t : Int) :
    ∀ (l : List JobInstance) (acc : SimState),
      l.foldl (execStep cfg t) acc =
        { acc with
          active := acc.active ++
            l.map (fun j => if execDue cfg t j then { j with timedOut := true } else j),
          events := acc.events ++
            (l.filter (fun j => decide (execDue cfg t j))).map
              (fun j =>
                { time := t, type := .jobTimeout, jobId := j.id,
                  activeLeases := acc.activeLeases,
                  msg := .execTimeoutMsg cfg.jobTimeoutDuration,
                  isWarning := true }) } := by
  intro l
  induction l with
  | nil => intro acc; simp
  | cons j l ih =>
    intro acc
    rw [List.foldl_cons, ih]
    by_cases hd : execDue cfg t j
    · have hstep : execStep cfg t acc j =
        { acc with
          active := acc.active ++ [{ j with timedOut := true }],
          events := acc.events ++
            [{ time := t, type := .jobTimeout, jobId := j.id,
               activeLeases := acc.activeLeases,
               msg := .execTimeoutMsg cfg.jobTimeoutDuration,
               isWarning := true }] } := by
        unfold execStep
        rw [if_pos hd]
      rw [hstep]
      simp [hd, List.filter_cons, List.append_assoc]
    · have hstep : execStep cfg t acc j = { acc with active := acc.active ++ [j] } := by
        unfold execStep
        rw [if_neg hd]
      rw [hstep]
      simp [hd, List.filter_cons, List.append_assoc]

set_option maxRecDepth 100000 in
/-- C2.  Execution-timeout phase: every active instance whose running
time `t - startTime` has reached `jobTimeoutDuration` and that is not
yet flagged is marked timed-out and produces exactly one warning event;
already-flagged instances produce none (so repeated ticks do not
re-emit); the phase frees no lease: `activeLeases`, the waiting queue
and the pending list are untouched and every instance stays in the
active set, its release happening only through the normal completion
check (demonstrated by the closing full-run scenario with
`jobTimeoutDuration` = 8h: one timeout event at t = 8h, the lease
released by completion at the instance's `endTime` = 8h05, and
`activeLeases` decremented only there). -/
theorem claim_C2_execTimeout (cfg : Config) (t : Int) (s : SimState) :
    ((execTimeoutPhase cfg t s).activeLeases = s.activeLeases ∧
     (execTimeoutPhase cfg t s).pending = s.pending ∧
     (execTimeoutPhase cfg t s).waiting = s.waiting ∧
     (execTimeoutPhase cfg t s).active =
       s.active.map (fun j => if execDue cfg t j then { j with timedOut := true } else j) ∧
     (execTimeoutPhase cfg t s).events =
       s.events ++
         (s.active.filter (fun j => decide (execDue cfg t j))).map
           (fun j =>
             { time := t, type := .jobTimeout, jobId := j.id,
               activeLeases := s.activeLeases,
               msg := .execTimeoutMsg cfg.jobTimeoutDuration,
               isWarning := true }) ∧
     (∀ j, execDue cfg t j →
        ¬ execDue cfg t ({ j with timedOut := true }))) ∧
    (runSim ⟨2, 480, 30, 1440⟩ 300 0
        (initState [{ id := 0, job := ⟨485⟩, startTime := 0, endTime := 485 }])).events =
      [{ time := 0, type := .leaseAcquired, jobId := 0, activeLeases := 1,
         msg := .acquired, isWarning := false },
       { time := 480, type := .jobTimeout, jobId := 0, activeLeases := 1,
         msg := .execTimeoutMsg 480, isWarning := true },
       { time := 485, type := .leaseReleased, jobId := 0, activeLeases := 0,
         msg := .releasedMsg, isWarning := false }] := by
  refine ⟨⟨?_, ?_, ?_, ?_, ?_, ?_⟩, ?_⟩
  · simp [execTimeoutPhase, execTimeout_foldl]
  · simp [execTimeoutPhase, execTimeout_foldl]
  · simp [execTimeoutPhase, execTimeout_foldl]
  · simp [execTimeoutPhase, execTimeout_foldl]
  · simp [execTimeoutPhase, execTimeout_foldl]
  · intro j hj hcontra
    exact absurd hcontra.2 (by simp)
  · rfl

/-! ## Claim C3 -/

/-- C3.  Promotion re-timing: when a completion releases a lease at
instant `t` and the waiting queue is non-empty, the queue head `w` is
dequeued and promoted with `startTime = t` and `endTime = t + duration`
— so both its duration and its execution-timeout clock (which measures
`t - startTime`) restart from the promotion instant, not from the
original scheduled start; the lease count is decremented by the release
and incremented back by the promotion, and a `LeaseAcquired` event
carrying the accumulated wait is emitted right after the
`LeaseReleased` event. -/
theorem claim_C3_promotion (t : Int) (acc : SimState) (j w : JobInstance)
    (ws : List JobInstance) (hdone : j.endTime ≤ t) (hq : acc.waiting = w :: ws) :
    completionStep t acc j =
      { acc with
        activeLeases := acc.activeLeases - 1 + 1,
        waiting := ws,
        active := acc.active ++
          [{ w with
              leaseAcquired := true,
              startTime := t,
              endTime := t + w.job.duration }],
        events := acc.events ++
          [{ time := t, type := .leaseReleased, jobId := j.id,
             activeLeases := acc.activeLeases - 1, msg := .releasedMsg,
             isWarning := false },
           { time := t, type := .leaseAcquired, jobId := w.id,
             activeLeases := acc.activeLeases - 1 + 1,
             msg := .acquiredAfterWait w.leaseWaitTime,
             isWarning := false }] } := by
  simp [completionStep, hdone, hq]

/-- Witness for C3: a concrete completion at t = 60 promoting a waiting
instance whose original schedule started at 0; the promoted record is
re-timed to `startTime = 60`, `endTime = 60 + 30`. -/
theorem claim_C3_promotion_witness :
    completionStep 60
      { pending := [], active := [],
        waiting := [{ id := 2, job := ⟨30⟩, startTime := 0, endTime := 30,
                      leaseWaitTime := 25 }],
        activeLeases := 1, events := [] }
      { id := 1, job := ⟨60⟩, startTime := 0, endTime := 60,
        leaseAcquired := true } =
      { pending := [],
        activeLeases := 1 - 1 + 1,
        waiting := [],
        active := [{ id := 2, job := ⟨30⟩, startTime := 60, endTime := 60 + 30,
                     leaseAcquired := true, leaseWaitTime := 25 }],
        events := [{ time := 60, type := .leaseReleased, jobId := 1,
                     activeLeases := 0, msg := .releasedMsg, isWarning := false },
                   { time := 60, type := .leaseAcquired, jobId := 2,
                     activeLeases := 1, msg := .acquiredAfterWait 25,
                     isWarning := false }] } := by
  have h := claim_C3_promotion 60
    { pending := [], active := [],
      waiting := [{ id := 2, job := ⟨30⟩, startTime := 0, endTime := 30,
                    leaseWaitTime := 25 }],
      activeLeases := 1, events := [] }
    { id := 1, job := ⟨60⟩, startTime := 0, endTime := 60, leaseAcquired := true }
    { id := 2, job := ⟨30⟩, startTime := 0, endTime := 30, leaseWaitTime := 25 }
    [] (by decide) rfl
  simpa using h

/-! ## Claim C4 -/

/-- The increment of one tick's length applied to a waiting instance
(`simulator.go` line 244, `job.LeaseWaitTime += 5 * time.Minute`). -/
def bumpWait (j : JobInstance) : JobInstance :=
  { j with leaseWaitTime := j.leaseWaitTime + 5 }

/-- The ids of every instance still inside the engine (pending, active
or waiting). -/
def idsOf (s : SimState) : List Nat :=
  s.pending.map JobInstance.id ++ s.active.map JobInstance.id ++
    s.waiting.map JobInstance.id

theorem mem_ids_admitOne (cfg : Config) (t : Int) (acc : SimState) (j : JobInstance)
    (x : Nat) (hx : x ∈ idsOf (admitOne cfg t acc j)) : x ∈ idsOf acc ∨ x = j.id := by
  unfold admitOne at hx
  by_cases hc : cfg.maxActiveLeases - acc.activeLeases > 0
  · rw [if_pos hc] at hx
    simp only [idsOf, List.map_append, List.map_cons, List.map_nil,
      List.mem_append, List.mem_cons, List.not_mem_nil, or_false, false_or] at hx ⊢
    tauto
  · rw [if_neg hc] at hx
    simp only [idsOf, List.map_append, List.map_cons, List.map_nil,
      List.mem_append, List.mem_cons, List.not_mem_nil, or_false, false_or] at hx ⊢
    tauto

theorem mem_ids_completionStep (t : Int) (acc : SimState) (j : JobInstance)
    (x : Nat) (hx : x ∈ idsOf (completionStep t acc j)) : x ∈ idsOf acc ∨ x = j.id := by
  unfold completionStep at hx
  by_cases hc : j.endTime ≤ t
  · rw [if_pos hc] at hx
    cases hw : acc.waiting with
    | nil =>
      rw [hw] at hx
      simp only [hw, idsOf, List.map_append, List.map_cons, List.map_nil,
        List.mem_append, List.mem_cons, List.not_mem_nil, or_false, false_or] at hx ⊢
      tauto
    | cons w ws =>
      rw [hw] at hx
      simp only [hw, idsOf, List.map_append, List.map_cons, List.map_nil,
        List.mem_append, List.mem_cons, List.not_mem_nil, or_false, false_or] at hx ⊢
      tauto
  · rw [if_neg hc] at hx
    simp only [idsOf, List.map_append, List.map_cons, List.map_nil,
      List.mem_append, List.mem_cons, List.not_mem_nil, or_false, false_or] at hx ⊢
    tauto

theorem mem_ids_waitStep (cfg : Config) (t : Int) (acc : SimState) (j : JobInstance)
    (x : Nat) (hx : x ∈ idsOf (waitStep cfg t acc j)) : x ∈ idsOf acc ∨ x = j.id := by
  unfold waitStep at hx
  by_cases hc : j.leaseWaitTime + 5 ≥ cfg.leaseWaitTimeout
  · rw [if_pos hc] at hx
    exact Or.inl hx
  · rw [if_neg hc] at hx
    simp only [idsOf, List.map_append, List.map_cons, List.map_nil,
      List.mem_append, List.mem_cons, List.not_mem_nil, or_false, false_or] at hx ⊢
    tauto

theorem mem_ids_execStep (cfg : Config) (t : Int) (acc : SimState) (j : JobInstance)
    (x : Nat) (hx : x ∈ idsOf (execStep cfg t acc j)) : x ∈ idsOf acc ∨ x = j.id := by
  unfold execStep at hx
  by_cases hc : execDue cfg t j
  · rw [if_pos hc] at hx
    simp only [idsOf, List.map_append, List.map_cons, List.map_nil,
      List.mem_append, List.mem_cons, List.not_mem_nil, or_false, false_or] at hx ⊢
    tauto
  · rw [if_neg hc] at hx
    simp only [idsOf, List.map_append, List.map_cons, List.map_nil,
      List.mem_append, List.mem_cons, List.not_mem_nil, or_false, false_or] at hx ⊢
    tauto

theorem mem_ids_foldl {step : SimState → JobInstance → SimState}
    (hstep : ∀ acc j x, x ∈ idsOf (step acc j) → x ∈ idsOf acc ∨ x = j.id) :
    ∀ (l : List JobInstance) (acc : SimState) (x : Nat),
      x ∈ idsOf (l.foldl step acc) → x ∈ idsOf acc ∨ x ∈ l.map JobInstance.id := by
  intro l
  induction l with
  | nil => intro acc x hx; exact Or.inl hx
  | cons j l ih =>
    intro acc x hx
    rcases ih (step acc j) x hx with h | h
    · rcases hstep acc j x h with h2 | h2
      · exact Or.inl h2
      · right; simp [h2]
    · right
      simp only [List.map_cons, List.mem_cons]
      exact Or.inr h

theorem mem_ids_admissionPhase (cfg : Config) (t : Int) (u : SimState) (x : Nat)
    (hu : x ∈ idsOf (admissionPhase cfg t u)) : x ∈ idsOf u := by
  unfold admissionPhase at hu
  rcases mem_ids_foldl (mem_ids_admitOne cfg t)
      (u.pending.takeWhile (fun j => decide (j.startTime ≤ t))) _ x hu with h | h
  · simp only [idsOf, List.mem_append] at h ⊢
    rcases h with (h | h) | h
    · exact Or.inl (Or.inl
        (((u.pending.dropWhile_sublist (fun j => decide (j.startTime ≤ t))).map
          JobInstance.id).mem h))
    · exact Or.inl (Or.inr h)
    · exact Or.inr h
  · simp only [idsOf, List.mem_append]
    exact Or.inl (Or.inl
      (((u.pending.takeWhile_sublist (fun j => decide (j.startTime ≤ t))).map
        JobInstance.id).mem h))

theorem mem_ids_completionPhase (t : Int) (u : SimState) (x : Nat)
    (hu : x ∈ idsOf (completionPhase t u)) : x ∈ idsOf u := by
  unfold completionPhase at hu
  rcases mem_ids_foldl (mem_ids_completionStep t) u.active _ x hu with h | h
  · simp only [idsOf, List.mem_append] at h ⊢
    simp only [List.map_nil, List.not_mem_nil, false_or] at h
    tauto
  · simp only [idsOf, List.mem_append]
    tauto

theorem mem_ids_waitTimeoutPhase (cfg : Config) (t : Int) (u : SimState) (x : Nat)
    (hu : x ∈ idsOf (waitTimeoutPhase cfg t u)) : x ∈ idsOf u := by
  unfold waitTimeoutPhase at hu
  rcases mem_ids_foldl (mem_ids_waitStep cfg t) u.waiting _ x hu with h | h
  · simp only [idsOf, List.mem_append] at h ⊢
    simp only [List.map_nil, List.not_mem_nil, or_false] at h
    tauto
  · simp only [idsOf, List.mem_append]
    tauto

theorem mem_ids_execTimeoutPhase (cfg : Config) (t : Int) (u : SimState) (x : Nat)
    (hu : x ∈ idsOf (execTimeoutPhase cfg t u)) : x ∈ idsOf u := by
  unfold execTimeoutPhase at hu
  rcases mem_ids_foldl (mem_ids_execStep cfg t) u.active _ x hu with h | h
  · simp only [idsOf, List.mem_append] at h ⊢
    simp only [List.map_nil, List.not_mem_nil, false_or] at h
    tauto
  · simp only [idsOf, List.mem_append]
    tauto

theorem mem_ids_tick (cfg : Config) (t : Int) (s : SimState) (x : Nat)
    (hx : x ∈ idsOf (tick cfg t s)) : x ∈ idsOf s := by
  unfold tick at hx
  exact mem_ids_admissionPhase cfg t s x
    (mem_ids_completionPhase t _ x
      (mem_ids_waitTimeoutPhase cfg t _ x
        (mem_ids_execTimeoutPhase cfg t _ x hx)))

theorem not_mem_ids_runSim (cfg : Config) (x : Nat) :
    ∀ (fuel : Nat) (t : Int) (s : SimState),
      x ∉ idsOf s → x ∉ idsOf (runSim cfg fuel t s) := by
  intro fuel
  induction fuel with
  | zero => intro t s h; exact h
  | succ n ih =>
    intro t s h
    rw [runSim]
    by_cases h1 : t < cfg.simulationEnd ∨ s.active ≠ [] ∨ s.waiting ≠ []
    · rw [if_pos h1]
      by_cases h2 : (tick cfg t s).pending = [] ∧ (tick cfg t s).active = [] ∧
          (tick cfg t s).waiting = []
      · rw [if_pos h2]
        exact fun hc => h (mem_ids_tick cfg t s x hc)
      · rw [if_neg h2]
        exact ih (t + 5) (tick cfg t s) (fun hc => h (mem_ids_tick cfg t s x hc))
    · rw [if_neg h1]
      exact h


/-- Closed form of the wait-timeout fold: every waiting instance gains
one tick's length of accumulated wait; those reaching
`leaseWaitTimeout` are removed from the queue with one warning event
each, the rest are kept in order; nothing else changes. -/
theorem waitTimeout_foldl (cfg : Config) (t : Int) :
    ∀ (l : List JobInstance) (acc : SimState),
      l.foldl (waitStep cfg t) acc =
        { acc with
          waiting := acc.waiting ++
            (l.map bumpWait).filter
              (fun j => decide (¬ j.leaseWaitTime ≥ cfg.leaseWaitTimeout)),
          events := acc.events ++
            ((l.map bumpWait).filter
                (fun j => decide (j.leaseWaitTime ≥ cfg.leaseWaitTimeout))).map
              (fun j =>
                { time := t, type := .jobTimeout, jobId := j.id,
                  activeLeases := acc.activeLeases,
                  msg := .waitTimeoutMsg j.leaseWaitTime, isWarning := true }) } := by
  intro l
  induction l with
  | nil => intro acc; simp
  | cons j l ih =>
    intro acc
    rw [List.foldl_cons, ih]
    by_cases hd : (bumpWait j).leaseWaitTime ≥ cfg.leaseWaitTimeout
    · have hstep : waitStep cfg t acc j =
        { acc with events := acc.events ++
            [{ time := t, type := .jobTimeout, jobId := j.id,
               activeLeases := acc.activeLeases,
               msg := .waitTimeoutMsg (bumpWait j).leaseWaitTime,
               isWarning := true }] } := by
        unfold waitStep bumpWait at hd ⊢
        rw [if_pos hd]
      have h1 : cfg.leaseWaitTimeout ≤ j.leaseWaitTime + 5 := hd
      have h2 : ¬ (j.leaseWaitTime + 5 < cfg.leaseWaitTimeout) := by omega
      rw [hstep]
      simp [List.filter_cons, h1, h2, List.append_assoc, bumpWait]
    · have hstep : waitStep cfg t acc j = { acc with waiting := acc.waiting ++ [bumpWait j] } := by
        unfold waitStep bumpWait at hd ⊢
        rw [if_neg hd]
      have h1 : ¬ cfg.leaseWaitTimeout ≤ j.leaseWaitTime + 5 := hd
      have h2 : j.leaseWaitTime + 5 < cfg.leaseWaitTimeout := by omega
      rw [hstep]
      simp [List.filter_cons, h1, h2, List.append_assoc, bumpWait]

set_option maxRecDepth 100000 in
/-- C4.  Wait-timeout phase: at every tick each waiting instance's
accumulated wait grows by one 5-minute tick; an instance whose bumped
wait reaches `leaseWaitTimeout` is removed from the queue with exactly
one warning event (the others are kept in order), while `activeLeases`,
the active set and the pending list are untouched; an instance that has
left the engine never re-enters it (over any number of further ticks);
and in the concrete blocked scenario (`leaseWaitTimeout` = 30m, tick =
5m, a permanently blocked instance) the instance times out at the 6th
tick, t = 25, with 30 minutes accumulated, and the event log of the
whole run contains exactly that one timeout. -/
theorem claim_C4_waitTimeout (cfg : Config) (t : Int) (s : SimState) :
    ((waitTimeoutPhase cfg t s).pending = s.pending ∧
     (waitTimeoutPhase cfg t s).active = s.active ∧
     (waitTimeoutPhase cfg t s).activeLeases = s.activeLeases ∧
     (waitTimeoutPhase cfg t s).waiting =
       (s.waiting.map bumpWait).filter
         (fun j => decide (¬ j.leaseWaitTime ≥ cfg.leaseWaitTimeout)) ∧
     (waitTimeoutPhase cfg t s).events =
       s.events ++
         ((s.waiting.map bumpWait).filter
             (fun j => decide (j.leaseWaitTime ≥ cfg.leaseWaitTimeout))).map
           (fun j =>
             { time := t, type := .jobTimeout, jobId := j.id,
               activeLeases := s.activeLeases,
               msg := .waitTimeoutMsg j.leaseWaitTime, isWarning := true })) ∧
    (∀ (x : Nat) (fuel : Nat), x ∉ idsOf s → x ∉ idsOf (runSim cfg fuel t s)) ∧
    (runSim ⟨1, 4800, 30, 1440⟩ 300 0
        (initState [{ id := 0, job := ⟨600⟩, startTime := 0, endTime := 600 },
                    { id := 1, job := ⟨60⟩, startTime := 0, endTime := 60 }])).events =
      [{ time := 0, type := .leaseAcquired, jobId := 0, activeLeases := 1,
         msg := .acquired, isWarning := false },
       { time := 0, type := .jobWaiting, jobId := 1, activeLeases := 1,
         msg := .waitingMsg, isWarning := true },
       { time := 25, type := .jobTimeout, jobId := 1, activeLeases := 1,
         msg := .waitTimeoutMsg 30, isWarning := true },
       { time := 600, type := .leaseReleased, jobId := 0, activeLeases := 0,
         msg := .releasedMsg, isWarning := false }] := by
  refine ⟨⟨?_, ?_, ?_, ?_, ?_⟩, ?_, ?_⟩
  · simp [waitTimeoutPhase, waitTimeout_foldl]
  · simp [waitTimeoutPhase, waitTimeout_foldl]
  · simp [waitTimeoutPhase, waitTimeout_foldl]
  · simp [waitTimeoutPhase, waitTimeout_foldl]
  · simp [waitTimeoutPhase, waitTimeout_foldl]
  · intro x fuel hx
    exact not_mem_ids_runSim cfg x fuel t s hx
  · rfl

/-- Witness for C4: the run-level no-re-entry conjunct applied at a
concrete state and id. -/
theorem claim_C4_waitTimeout_witness :
    9 ∉ idsOf (runSim ⟨1, 480, 30, 60⟩ 40 0
      (initState [{ id := 0, job := ⟨60⟩, startTime := 0, endTime := 60 }])) := by
  exact (claim_C4_waitTimeout ⟨1, 480, 30, 60⟩ 0
    (initState [{ id := 0, job := ⟨60⟩, startTime := 0, endTime := 60 }])).2.1
    9 40 (by decide)

/-! ## Claim C5 -/

/-- The counted-leases invariant: `activeLeases` equals the number of
instances in the active set. -/
def leaseInv (s : SimState) : Prop :=
  s.activeLeases = (s.active.length : Int)

theorem leaseInv_admitOne (cfg : Config) (t : Int) (acc : SimState) (j : JobInstance)
    (h : leaseInv acc) : leaseInv (admitOne cfg t acc j) := by
  unfold admitOne
  by_cases hc : cfg.maxActiveLeases - acc.activeLeases > 0
  · rw [if_pos hc]
    unfold leaseInv at h ⊢
    simp [h]
  · rw [if_neg hc]
    exact h

theorem leaseInv_admission_foldl (cfg : Config) (t : Int) :
    ∀ (l : List JobInstance) (acc : SimState), leaseInv acc →
      leaseInv (l.foldl (admitOne cfg t) acc) := by
  intro l
  induction l with
  | nil => intro acc h; exact h
  | cons j l ih => intro acc h; exact ih _ (leaseInv_admitOne cfg t acc j h)

theorem leaseInv_completion_foldl (t : Int) :
    ∀ (l : List JobInstance) (acc : SimState),
      acc.activeLeases = (acc.active.length : Int) + l.length →
      leaseInv (l.foldl (completionStep t) acc) := by
  intro l
  induction l with
  | nil => intro acc h; simpa [leaseInv] using h
  | cons j l ih =>
    intro acc h
    rw [List.foldl_cons]
    apply ih
    unfold completionStep
    by_cases hc : j.endTime ≤ t
    · rw [if_pos hc]
      cases hw : acc.waiting with
      | nil => simp at h ⊢; omega
      | cons w ws => simp at h ⊢; omega
    · rw [if_neg hc]
      simp at h ⊢
      omega

theorem leaseInv_tick (cfg : Config) (t : Int) (s : SimState)
    (h : leaseInv s) : leaseInv (tick cfg t s) := by
  unfold tick
  have h1 : leaseInv (admissionPhase cfg t s) := by
    unfold admissionPhase
    exact leaseInv_admission_foldl cfg t _ _ h
  have h2 : leaseInv (completionPhase t (admissionPhase cfg t s)) := by
    unfold completionPhase
    apply leaseInv_completion_foldl
    simpa [leaseInv] using h1
  have h3 : leaseInv (waitTimeoutPhase cfg t (completionPhase t (admissionPhase cfg t s))) := by
    unfold leaseInv at h2 ⊢
    rw [waitTimeoutPhase, waitTimeout_foldl]
    simpa using h2
  unfold leaseInv at h3 ⊢
  rw [execTimeoutPhase, execTimeout_foldl]
  simpa using h3

theorem leaseInv_runSim (cfg : Config) :
    ∀ (fuel : Nat) (t : Int) (s : SimState), leaseInv s →
      leaseInv (runSim cfg fuel t s) := by
  intro fuel
  induction fuel with
  | zero => intro t s h; exact h
  | succ n ih =>
    intro t s h
    rw [runSim]
    by_cases h1 : t < cfg.simulationEnd ∨ s.active ≠ [] ∨ s.waiting ≠ []
    · rw [if_pos h1]
      by_cases h2 : (tick cfg t s).pending = [] ∧ (tick cfg t s).active = [] ∧
          (tick cfg t s).waiting = []
      · rw [if_pos h2]
        exact leaseInv_tick cfg t s h
      · rw [if_neg h2]
        exact ih (t + 5) (tick cfg t s) (leaseInv_tick cfg t s h)
    · rw [if_neg h1]
      exact h

/-- C5.  Engine state invariant: after any number of ticks of any
simulation run, `activeLeases` equals the number of instances currently
in the active set (in particular it is non-negative). -/
theorem claim_C5_activeCount (cfg : Config) (jobs : List JobInstance) (fuel : Nat) :
    (runSim cfg fuel 0 (initState jobs)).activeLeases =
      ((runSim cfg fuel 0 (initState jobs)).active.length : Int) ∧
    0 ≤ (runSim cfg fuel 0 (initState jobs)).activeLeases := by
  have h : leaseInv (runSim cfg fuel 0 (initState jobs)) :=
    leaseInv_runSim cfg fuel 0 (initState jobs) (by simp [leaseInv, initState])
  unfold leaseInv at h
  refine ⟨h, ?_⟩
  rw [h]
  positivity

/-! ## Claim C6 -/

/-- Recognises a promotion event: a `LeaseAcquired` whose message is the
`acquired lease after waiting` format string (`simulator.go` line 232),
yielding the promoted instance's id. -/
def isAfterWaitAcq (e : Event) : Option Nat :=
  match e.msg with
  | .acquiredAfterWait _ => some e.jobId
  | _ => none

/-- The ids of promoted instances, in event-log order. -/
def afterWaitAcqIds (evts : List Event) : List Nat :=
  evts.filterMap isAfterWaitAcq

theorem afterWaitAcqIds_append (a b : List Event) :
    afterWaitAcqIds (a ++ b) = afterWaitAcqIds a ++ afterWaitAcqIds b := by
  unfold afterWaitAcqIds
  exact List.filterMap_append a b isAfterWaitAcq

theorem admitOne_fifo (cfg : Config) (t : Int) (acc : SimState) (j : JobInstance) :
    ∃ (d : List JobInstance) (evs : List Event),
      (admitOne cfg t acc j).waiting = acc.waiting ++ d ∧
      (admitOne cfg t acc j).events = acc.events ++ evs ∧
      afterWaitAcqIds evs = [] := by
  unfold admitOne
  by_cases hc : cfg.maxActiveLeases - acc.activeLeases > 0
  · rw [if_pos hc]
    by_cases hm : acc.activeLeases + 1 > cfg.maxActiveLeases
    · refine ⟨[],
        [{ time := t, type := .leaseAcquired, jobId := j.id,
           activeLeases := acc.activeLeases + 1, msg := .acquired,
           isWarning := false },
         { time := t, type := .maxExceeded, jobId := j.id,
           activeLeases := acc.activeLeases + 1,
           msg := .maxExceededMsg (acc.activeLeases + 1) cfg.maxActiveLeases,
           isWarning := true }],
        by simp, by simp [hm], ?_⟩
      simp [afterWaitAcqIds, isAfterWaitAcq]
    · refine ⟨[],
        [{ time := t, type := .leaseAcquired, jobId := j.id,
           activeLeases := acc.activeLeases + 1, msg := .acquired,
           isWarning := false }],
        by simp, by simp [hm], ?_⟩
      simp [afterWaitAcqIds, isAfterWaitAcq]
  · rw [if_neg hc]
    refine ⟨[{ j with leaseWaitTime := 0 }],
      [{ time := t, type := .jobWaiting, jobId := j.id,
         activeLeases := acc.activeLeases, msg := .waitingMsg,
         isWarning := true }],
      by simp, by simp, ?_⟩
    simp [afterWaitAcqIds, isAfterWaitAcq]

theorem admission_foldl_fifo (cfg : Config) (t : Int) :
    ∀ (l : List JobInstance) (acc : SimState),
      ∃ d : List JobInstance,
        (l.foldl (admitOne cfg t) acc).waiting = acc.waiting ++ d ∧
        afterWaitAcqIds (l.foldl (admitOne cfg t) acc).events =
          afterWaitAcqIds acc.events := by
  intro l
  induction l with
  | nil => intro acc; exact ⟨[], by simp, rfl⟩
  | cons j l ih =>
    intro acc
    rw [List.foldl_cons]
    rcases admitOne_fifo cfg t acc j with ⟨d0, evs0, hw0, he0, hids0⟩
    rcases ih (admitOne cfg t acc j) with ⟨d1, hw1, he1⟩
    refine ⟨d0 ++ d1, ?_, ?_⟩
    · rw [hw1, hw0, List.append_assoc]
    · rw [he1, he0, afterWaitAcqIds_append, hids0, List.append_nil]

theorem completionStep_fifo (t : Int) (acc : SimState) (j : JobInstance) :
    ∃ evs : List Event,
      (completionStep t acc j).events = acc.events ++ evs ∧
      (((completionStep t acc j).waiting = acc.waiting ∧ afterWaitAcqIds evs = []) ∨
       (∃ w ws, acc.waiting = w :: ws ∧ (completionStep t acc j).waiting = ws ∧
          afterWaitAcqIds evs = [w.id])) := by
  unfold completionStep
  by_cases hc : j.endTime ≤ t
  · rw [if_pos hc]
    cases hq : acc.waiting with
    | nil =>
      refine ⟨[{ time := t, type := .leaseReleased, jobId := j.id,
                 activeLeases := acc.activeLeases - 1, msg := .releasedMsg,
                 isWarning := false }],
        by simp [hq], Or.inl ⟨by simp [hq], ?_⟩⟩
      simp [afterWaitAcqIds, isAfterWaitAcq]
    | cons w ws =>
      refine ⟨[{ time := t, type := .leaseReleased, jobId := j.id,
                 activeLeases := acc.activeLeases - 1, msg := .releasedMsg,
                 isWarning := false },
               { time := t, type := .leaseAcquired, jobId := w.id,
                 activeLeases := acc.activeLeases - 1 + 1,
                 msg := .acquiredAfterWait w.leaseWaitTime,
                 isWarning := false }],
        by simp [hq], Or.inr ⟨w, ws, rfl, by simp [hq], ?_⟩⟩
      simp [afterWaitAcqIds, isAfterWaitAcq]
  · rw [if_neg hc]
    refine ⟨[], by simp, Or.inl ⟨by simp, rfl⟩⟩

theorem completion_foldl_fifo (t : Int) :
    ∀ (l : List JobInstance) (acc : SimState),
      ∃ k : Nat,
        (l.foldl (completionStep t) acc).waiting = acc.waiting.drop k ∧
        afterWaitAcqIds (l.foldl (completionStep t) acc).events =
          afterWaitAcqIds acc.events ++ (acc.waiting.take k).map JobInstance.id := by
  intro l
  induction l with
  | nil => intro acc; exact ⟨0, by simp, by simp⟩
  | cons j l ih =>
    intro acc
    rw [List.foldl_cons]
    rcases completionStep_fifo t acc j with ⟨evs, he0, hcase⟩
    rcases ih (completionStep t acc j) with ⟨k, hw1, he1⟩
    rcases hcase with ⟨hw0, hids0⟩ | ⟨w, ws, hq, hw0, hids0⟩
    · refine ⟨k, ?_, ?_⟩
      · rw [hw1, hw0]
      · rw [he1, he0, afterWaitAcqIds_append, hids0, List.append_nil, hw0]
    · refine ⟨k + 1, ?_, ?_⟩
      · rw [hw1, hw0, hq]
        simp
      · rw [he1, he0, afterWaitAcqIds_append, hids0, hw0, hq]
        simp

theorem afterWaitAcqIds_of_none (evts : List Event)
    (h : ∀ e ∈ evts, isAfterWaitAcq e = none) : afterWaitAcqIds evts = [] := by
  induction evts with
  | nil => rfl
  | cons e l ih =>
    unfold afterWaitAcqIds at ih ⊢
    rw [List.filterMap_cons, h e (by simp)]
    exact ih (fun x hx => h x (by simp [hx]))

theorem waitPhase_afterWait (cfg : Config) (t : Int) (s : SimState) :
    afterWaitAcqIds (waitTimeoutPhase cfg t s).events = afterWaitAcqIds s.events := by
  rw [waitTimeoutPhase, waitTimeout_foldl]
  show afterWaitAcqIds (s.events ++ _) = _
  rw [afterWaitAcqIds_append]
  rw [afterWaitAcqIds_of_none (List.map _ _) ?_, List.append_nil]
  intro e he
  rcases List.mem_map.mp he with ⟨x, _, rfl⟩
  rfl

theorem execPhase_afterWait (cfg : Config) (t : Int) (s : SimState) :
    afterWaitAcqIds (execTimeoutPhase cfg t s).events = afterWaitAcqIds s.events := by
  rw [execTimeoutPhase, execTimeout_foldl]
  show afterWaitAcqIds (s.events ++ _) = _
  rw [afterWaitAcqIds_append]
  rw [afterWaitAcqIds_of_none (List.map _ _) ?_, List.append_nil]
  intro e he
  rcases List.mem_map.mp he with ⟨x, _, rfl⟩
  rfl

theorem map_id_map_bumpWait (l : List JobInstance) :
    (l.map bumpWait).map JobInstance.id = l.map JobInstance.id := by
  rw [List.map_map]
  rfl

/-- C6.  FIFO queueing and promotion: during a tick, (a) the admission
phase only appends to the tail of the waiting queue, so enqueue order is
arrival order and the relative order of already-waiting instances never
changes; (b) there is a `k` such that the promotions recorded in the
tick's event log are exactly the first `k` instances of the
post-admission queue, in queue order (promotion order = enqueue order),
and the queue that survives the tick is a subsequence of the remaining
part of that queue (order preserved, elements only removed). -/
theorem claim_C6_fifo (cfg : Config) (t : Int) (s : SimState) :
    (∃ d : List JobInstance,
       (admissionPhase cfg t s).waiting = s.waiting ++ d ∧
       afterWaitAcqIds (admissionPhase cfg t s).events = afterWaitAcqIds s.events) ∧
    (∃ k : Nat,
       afterWaitAcqIds (tick cfg t s).events =
         afterWaitAcqIds s.events ++
           (((admissionPhase cfg t s).waiting.take k).map JobInstance.id) ∧
       List.Sublist ((tick cfg t s).waiting.map JobInstance.id)
         (((admissionPhase cfg t s).waiting.drop k).map JobInstance.id)) := by
  have hadm : ∃ d : List JobInstance,
      (admissionPhase cfg t s).waiting = s.waiting ++ d ∧
      afterWaitAcqIds (admissionPhase cfg t s).events = afterWaitAcqIds s.events := by
    unfold admissionPhase
    rcases admission_foldl_fifo cfg t
        (s.pending.takeWhile (fun j => decide (j.startTime ≤ t)))
        { s with pending := s.pending.dropWhile (fun j => decide (j.startTime ≤ t)) }
      with ⟨d, hw, he⟩
    exact ⟨d, hw, he⟩
  refine ⟨hadm, ?_⟩
  rcases completion_foldl_fifo t (admissionPhase cfg t s).active
      { admissionPhase cfg t s with active := [] } with ⟨k, hw2, he2⟩
  refine ⟨k, ?_, ?_⟩
  · unfold tick
    rw [execPhase_afterWait, waitPhase_afterWait]
    unfold completionPhase
    rw [he2]
    rcases hadm with ⟨d, _, headm⟩
    simp [headm]
  · unfold tick
    have hexec : (execTimeoutPhase cfg t
        (waitTimeoutPhase cfg t (completionPhase t (admissionPhase cfg t s)))).waiting =
        (waitTimeoutPhase cfg t (completionPhase t (admissionPhase cfg t s))).waiting := by
      rw [execTimeoutPhase, execTimeout_foldl]
    rw [hexec]
    have hwait : (waitTimeoutPhase cfg t (completionPhase t (admissionPhase cfg t s))).waiting =
        ((completionPhase t (admissionPhase cfg t s)).waiting.map bumpWait).filter
          (fun j => decide (¬ j.leaseWaitTime ≥ cfg.leaseWaitTimeout)) := by
      rw [waitTimeoutPhase, waitTimeout_foldl]
      simp
    rw [hwait]
    have hcomp : (completionPhase t (admissionPhase cfg t s)).waiting =
        (admissionPhase cfg t s).waiting.drop k := by
      unfold completionPhase
      rw [hw2]
    rw [hcomp]
    calc (((((admissionPhase cfg t s).waiting.drop k).map bumpWait).filter
            (fun j => decide (¬ j.leaseWaitTime ≥ cfg.leaseWaitTimeout))).map JobInstance.id).Sublist
          ((((admissionPhase cfg t s).waiting.drop k).map bumpWait).map JobInstance.id) :=
            List.Sublist.map JobInstance.id (List.filter_sublist _)
      _ = (((admissionPhase cfg t s).waiting.drop k).map JobInstance.id) :=
            map_id_map_bumpWait _

/-! ## Claim C8 -/

/-- Embeds `generateCronInstances` (`simulator.go` lines 89-116).  The
external cron library is the black-box oracle `next`: `next u` is the
first schedule occurrence strictly after `u` (`schedule.Next`).  The
loop starts the cursor at the window start, stops once the occurrence
is after the window end, emits an instance with
`EndTime = occurrence + duration` and moves the cursor one minute past
the occurrence; `fuel` bounds the iteration count. -/
def generateCron (next : Int → Int) (job : Job) (winEnd : Int) :
    Nat → Int → List JobInstance
  | 0, _ => []
  | fuel + 1, cur =>
    if cur < winEnd then
      if next cur > winEnd then []
      else
        { id := 0, job := job, startTime := next cur,
          endTime := next cur + job.duration } ::
          generateCron next job winEnd fuel (next cur + 1)
    else []

/-- The oracle for the schedule `0 */12 * * *` on a window whose origin
is midnight: the next multiple of 720 minutes strictly after `u`. -/
def next720 (u : Int) : Int := 720 * (u / 720 + 1)

theorem lt_next720 (u : Int) : u < next720 u := by
  have h := Int.lt_ediv_add_one_mul_self u (show (0:Int) < 720 by norm_num)
  unfold next720
  linarith [h]

/-- C8.  Cron instance generation: with any oracle that makes strict
progress, every generated instance has `endTime = occurrence +
duration`, every occurrence lies after the cursor and never after the
window end (generation stops once an occurrence exceeds it), and the
occurrences are strictly increasing — the cursor advance of one minute
past each occurrence means no slot is matched twice.  Concretely, the
schedule `0 */12 * * *` (the 720-minute oracle) over a 24-hour window
starting on a schedule boundary yields exactly the 2 occurrences at
12h and 24h. -/
theorem claim_C8_cron (next : Int → Int) (job : Job) (winEnd : Int)
    (hnext : ∀ u : Int, u < next u) :
    (∀ (fuel : Nat) (cur : Int) (p : JobInstance),
       p ∈ generateCron next job winEnd fuel cur →
         p.endTime = p.startTime + job.duration ∧ p.startTime ≤ winEnd ∧
           cur < p.startTime) ∧
    (∀ (fuel : Nat) (cur : Int),
       ((generateCron next job winEnd fuel cur).map JobInstance.startTime).Pairwise
         (fun a b => a < b)) ∧
    generateCron next720 ⟨360⟩ 1440 100 0 =
      [{ id := 0, job := ⟨360⟩, startTime := 720, endTime := 1080 },
       { id := 0, job := ⟨360⟩, startTime := 1440, endTime := 1800 }] := by
  have hmem : ∀ (fuel : Nat) (cur : Int) (p : JobInstance),
      p ∈ generateCron next job winEnd fuel cur →
        p.endTime = p.startTime + job.duration ∧ p.startTime ≤ winEnd ∧
          cur < p.startTime := by
    intro fuel
    induction fuel with
    | zero => intro cur p hp; simp [generateCron] at hp
    | succ n ih =>
      intro cur p hp
      unfold generateCron at hp
      by_cases h1 : cur < winEnd
      · rw [if_pos h1] at hp
        by_cases h2 : next cur > winEnd
        · rw [if_pos h2] at hp
          simp at hp
        · rw [if_neg h2] at hp
          rcases List.mem_cons.mp hp with h | h
          · subst h
            refine ⟨rfl, ?_, ?_⟩
            · show next cur ≤ winEnd
              omega
            · show cur < next cur
              exact hnext cur
          · rcases ih (next cur + 1) p h with ⟨he, hw, hc⟩
            exact ⟨he, hw, by have := hnext cur; omega⟩
      · rw [if_neg h1] at hp
        simp at hp
  refine ⟨hmem, ?_, ?_⟩
  · intro fuel
    induction fuel with
    | zero => intro cur; simp [generateCron]
    | succ n ih =>
      intro cur
      unfold generateCron
      by_cases h1 : cur < winEnd
      · rw [if_pos h1]
        by_cases h2 : next cur > winEnd
        · rw [if_pos h2]
          simp
        · rw [if_neg h2]
          rw [List.map_cons, List.pairwise_cons]
          refine ⟨?_, ih (next cur + 1)⟩
          intro b hb
          rcases List.mem_map.mp hb with ⟨q, hq, rfl⟩
          have hlt := (hmem n (next cur + 1) q hq).2.2
          show next cur < q.startTime
          omega
      · rw [if_neg h1]
        simp
  · rfl

/-- Witness for C8: the theorem applied to the 720-minute oracle, whose
strict progress discharges the hypothesis. -/
theorem claim_C8_cron_witness :
    (∀ (fuel : Nat) (cur : Int) (p : JobInstance),
       p ∈ generateCron next720 ⟨360⟩ 1440 fuel cur →
         p.endTime = p.startTime + 360 ∧ p.startTime ≤ 1440 ∧
           cur < p.startTime) ∧
    (∀ (fuel : Nat) (cur : Int),
       ((generateCron next720 ⟨360⟩ 1440 fuel cur).map JobInstance.startTime).Pairwise
         (fun a b => a < b)) ∧
    generateCron next720 ⟨360⟩ 1440 100 0 =
      [{ id := 0, job := ⟨360⟩, startTime := 720, endTime := 1080 },
       { id := 0, job := ⟨360⟩, startTime := 1440, endTime := 1800 }] :=
  claim_C8_cron next720 ⟨360⟩ 1440 lt_next720

/-! ## Claim C9 -/

/-- Embeds `simulation.TimePoint` (`pkg/simulation/events.go`). -/
structure TimePoint where
  time : Int
  activeLeases : Int
  waitingJobs : Int
  deriving DecidableEq

/-- The waiting-counter update of `generateTimePoints` (`simulator.go`
lines 307-313): increment on a `Waiting` event, decrement on a
`LeaseAcquired` event only when the counter is positive. -/
def wUpdate (w : Int) (e : Event) : Int :=
  if e.type = .jobWaiting then w + 1
  else if e.type = .leaseAcquired then (if w > 0 then w - 1 else w) else w

/-- The inner event-cursor loop of `generateTimePoints` (`simulator.go`
lines 303-316): consume the events whose `Time` is at or before the
sample instant, tracking the last `ActiveLeases` seen and the waiting
counter; return both counters and the unconsumed suffix. -/
def sampleLoop (cur : Int) : List Event → Int → Int → Int × Int × List Event
  | [], a, w => (a, w, [])
  | e :: rest, a, w =>
    if e.time ≤ cur then sampleLoop cur rest e.activeLeases (wUpdate w e)
    else (a, w, e :: rest)

/-- The sampling loop of `generateTimePoints` (`simulator.go` lines
301-325): one `TimePoint` per 30-minute step while the sample instant
is at or before the window end; `fuel` bounds the iteration count. -/
def genTimePointsLoop (winEnd : Int) : Nat → Int → List Event → Int → Int → List TimePoint
  | 0, _, _, _, _ => []
  | fuel + 1, cur, evts, a, w =>
    if cur ≤ winEnd then
      { time := cur, activeLeases := (sampleLoop cur evts a w).1,
        waitingJobs := (sampleLoop cur evts a w).2.1 } ::
        genTimePointsLoop winEnd fuel (cur + 30) (sampleLoop cur evts a w).2.2
          (sampleLoop cur evts a w).1 (sampleLoop cur evts a w).2.1
    else []

/-- Embeds `generateTimePoints` (`simulator.go` lines 289-326): note the
early return on an empty event log. -/
def generateTimePoints (winStart winEnd : Int) (evts : List Event) (fuel : Nat) :
    List TimePoint :=
  if evts = [] then [] else genTimePointsLoop winEnd fuel winStart evts 0 0

/-- Modelled from the spec (§4.3): the sample instants the claim
demands, one per fixed 30-minute interval point from window start
through window end inclusive. -/
def specSampleTimes (winStart winEnd : Int) : List Int :=
  (List.range (((winEnd - winStart) / 30).toNat + 1)).map
    (fun k : Nat => winStart + 30 * (k : Int))

/-- Reference waiting counter: fold the increment/guarded-decrement rule
over all events at or before the sample instant. -/
def specWaitingCount (evts : List Event) (c : Int) : Int :=
  (evts.filter (fun e => decide (e.time ≤ c))).foldl wUpdate 0

theorem sampleLoop_spec (cur : Int) : ∀ (evts : List Event) (a w : Int),
    sampleLoop cur evts a w =
      ((evts.takeWhile (fun e => decide (e.time ≤ cur))).foldl
          (fun _ e => e.activeLeases) a,
       (evts.takeWhile (fun e => decide (e.time ≤ cur))).foldl wUpdate w,
       evts.dropWhile (fun e => decide (e.time ≤ cur))) := by
  intro evts
  induction evts with
  | nil => intro a w; rfl
  | cons e rest ih =>
    intro a w
    unfold sampleLoop
    by_cases hc : e.time ≤ cur
    · rw [if_pos hc, ih]
      rw [List.takeWhile_cons, List.dropWhile_cons]
      simp [hc]
    · rw [if_neg hc]
      rw [List.takeWhile_cons, List.dropWhile_cons]
      simp [hc]

theorem takeWhile_time_eq_filter (c : Int) :
    ∀ evts : List Event, evts.Pairwise (fun x y => x.time ≤ y.time) →
      evts.takeWhile (fun e => decide (e.time ≤ c)) =
        evts.filter (fun e => decide (e.time ≤ c)) := by
  intro evts
  induction evts with
  | nil => intro _; rfl
  | cons e rest ih =>
    intro h
    rcases List.pairwise_cons.mp h with ⟨he, hrest⟩
    by_cases hc : e.time ≤ c
    · simp [List.takeWhile_cons, List.filter_cons, hc, ih hrest]
    · have hnil : rest.filter (fun e => decide (e.time ≤ c)) = [] := by
        rw [List.filter_eq_nil_iff]
        intro b hb
        have : e.time ≤ b.time := he b hb
        simp
        omega
      simp [List.takeWhile_cons, List.filter_cons, hc, hnil]

theorem genLoop_nil (winEnd : Int) (fuel : Nat) (cur : Int) (evts : List Event)
    (a w : Int) (h : ¬ cur ≤ winEnd) :
    genTimePointsLoop winEnd fuel cur evts a w = [] := by
  cases fuel with
  | zero => rfl
  | succ n =>
    unfold genTimePointsLoop
    rw [if_neg h]

theorem genLoop_times (winEnd : Int) :
    ∀ (fuel : Nat) (cur : Int) (evts : List Event) (a w : Int),
      cur ≤ winEnd → ((winEnd - cur) / 30).toNat < fuel →
      (genTimePointsLoop winEnd fuel cur evts a w).map TimePoint.time =
        (List.range (((winEnd - cur) / 30).toNat + 1)).map
          (fun k : Nat => cur + 30 * (k : Int)) := by
  intro fuel
  induction fuel with
  | zero => intro cur evts a w hc hf; omega
  | succ n ih =>
    intro cur evts a w hc hf
    unfold genTimePointsLoop
    rw [if_pos hc]
    rw [List.map_cons]
    by_cases h30 : cur + 30 ≤ winEnd
    · have hstep : ((winEnd - cur) / 30).toNat = ((winEnd - (cur + 30)) / 30).toNat + 1 := by
        omega
      rw [ih (cur + 30) _ _ _ h30 (by omega), hstep]
      conv_rhs => rw [List.range_succ_eq_map, List.map_cons, List.map_map]
      rw [List.cons_eq_cons]
      refine ⟨by simp, ?_⟩
      refine List.map_congr_left ?_
      intro k _
      simp [Function.comp]
      ring
    · rw [genLoop_nil winEnd n (cur + 30) _ _ _ h30]
      have h0 : ((winEnd - cur) / 30).toNat = 0 := by omega
      rw [h0]
      rw [show List.range 1 = [0] from rfl]
      simp

theorem genLoop_waiting (winEnd : Int) :
    ∀ (fuel : Nat) (cur : Int) (done rest : List Event) (a : Int),
      rest.Pairwise (fun x y => x.time ≤ y.time) →
      (∀ e ∈ done, e.time ≤ cur) →
      ∀ tp ∈ genTimePointsLoop winEnd fuel cur rest a (done.foldl wUpdate 0),
        tp.waitingJobs = specWaitingCount (done ++ rest) tp.time := by
  intro fuel
  induction fuel with
  | zero => intro cur done rest a _ _ tp htp; simp [genTimePointsLoop] at htp
  | succ n ih =>
    intro cur done rest a hsorted hdone tp htp
    unfold genTimePointsLoop at htp
    by_cases hc : cur ≤ winEnd
    · rw [if_pos hc] at htp
      rw [sampleLoop_spec] at htp
      dsimp only at htp
      have hsplit : rest.takeWhile (fun e => decide (e.time ≤ cur)) ++
          rest.dropWhile (fun e => decide (e.time ≤ cur)) = rest :=
        List.takeWhile_append_dropWhile _ _
      have hw2 : (rest.takeWhile (fun e => decide (e.time ≤ cur))).foldl wUpdate
            (done.foldl wUpdate 0) =
          (done ++ rest.takeWhile (fun e => decide (e.time ≤ cur))).foldl wUpdate 0 :=
        (List.foldl_append _ _ _ _).symm
      rcases List.mem_cons.mp htp with h | h
      · subst h
        show (rest.takeWhile (fun e => decide (e.time ≤ cur))).foldl wUpdate
            (done.foldl wUpdate 0) = specWaitingCount (done ++ rest) cur
        rw [hw2]
        unfold specWaitingCount
        rw [List.filter_append]
        have hfd : done.filter (fun e => decide (e.time ≤ cur)) = done := by
          rw [List.filter_eq_self]
          intro b hb
          simpa using hdone b hb
        rw [hfd, ← takeWhile_time_eq_filter cur rest hsorted]
      · have hrest2sorted : (rest.dropWhile (fun e => decide (e.time ≤ cur))).Pairwise
            (fun x y => x.time ≤ y.time) :=
          List.Pairwise.sublist (List.dropWhile_sublist _) hsorted
        have hdone2 : ∀ e ∈ done ++ rest.takeWhile (fun e => decide (e.time ≤ cur)),
            e.time ≤ cur + 30 := by
          intro e he
          rcases List.mem_append.mp he with h2 | h2
          · have := hdone e h2; omega
          · have := List.mem_takeWhile_imp h2
            simp at this
            omega
        rw [hw2] at h
        have hres := ih (cur + 30) (done ++ rest.takeWhile (fun e => decide (e.time ≤ cur)))
          (rest.dropWhile (fun e => decide (e.time ≤ cur)))
          ((rest.takeWhile (fun e => decide (e.time ≤ cur))).foldl
            (fun _ e => e.activeLeases) a)
          hrest2sorted hdone2 tp h
        rw [hres, List.append_assoc, hsplit]
    · rw [if_neg hc] at htp
      simp at htp

/-- C9 counterexample: on the empty event log the sampler returns no
samples at all (`generateTimePoints` returns early), not the three
interval-point samples of the 1-hour window that the claim demands for
every event log. -/
theorem claim_C9_sampler_cex :
    (generateTimePoints 0 60 [] 100).map TimePoint.time = [] ∧
    specSampleTimes 0 60 = [0, 30, 60] ∧
    ([] : List Int) ≠ [0, 30, 60] := by
  refine ⟨rfl, by decide, by decide⟩

/-- C9 (amended).  Sampler coverage and bookkeeping, for a non-empty
event log: replaying a time-sorted event log emits exactly one
`TimePoint` per 30-minute interval point from window start through
window end inclusive, and each sample's `waitingJobs` equals the
reference fold of the increment-on-`Waiting`,
decrement-on-`LeaseAcquired`-when-positive rule over all events at or
before the sample instant. -/
theorem claim_C9_sampler (winStart winEnd : Int) (evts : List Event) (fuel : Nat)
    (hne : evts ≠ [])
    (hsorted : evts.Pairwise (fun x y => x.time ≤ y.time))
    (hwin : winStart ≤ winEnd)
    (hfuel : ((winEnd - winStart) / 30).toNat < fuel) :
    (generateTimePoints winStart winEnd evts fuel).map TimePoint.time =
      specSampleTimes winStart winEnd ∧
    ∀ tp ∈ generateTimePoints winStart winEnd evts fuel,
      tp.waitingJobs = specWaitingCount evts tp.time := by
  unfold generateTimePoints
  rw [if_neg hne]
  constructor
  · exact genLoop_times winEnd fuel winStart evts 0 0 hwin hfuel
  · intro tp htp
    have h := genLoop_waiting winEnd fuel winStart [] evts 0 hsorted
      (by intro e he; simp at he) tp (by simpa using htp)
    simpa using h

/-- Witness for C9: a one-event log over a 1-hour window; the sampler
emits the three interval points and its waiting counts match the
reference fold. -/
theorem claim_C9_sampler_witness :
    (generateTimePoints 0 60
        [{ time := 0, type := .jobWaiting, jobId := 1, activeLeases := 0,
           msg := .waitingMsg, isWarning := true }] 4).map TimePoint.time =
      specSampleTimes 0 60 ∧
    ∀ tp ∈ generateTimePoints 0 60
        [{ time := 0, type := .jobWaiting, jobId := 1, activeLeases := 0,
           msg := .waitingMsg, isWarning := true }] 4,
      tp.waitingJobs = specWaitingCount
        [{ time := 0, type := .jobWaiting, jobId := 1, activeLeases := 0,
           msg := .waitingMsg, isWarning := true }] tp.time :=
  claim_C9_sampler 0 60
    [{ time := 0, type := .jobWaiting, jobId := 1, activeLeases := 0,
       msg := .waitingMsg, isWarning := true }] 4
    (by decide) (by simp) (by decide) (by decide)

/-! ## Claim C10 -/

/-- Queue-implies-full: whenever the waiting queue is non-empty the pool
is at (or beyond) capacity. -/
def queueFull (cfg : Config) (s : SimState) : Prop :=
  s.waiting ≠ [] → cfg.maxActiveLeases ≤ s.activeLeases

/-- Every wait-timeout event in the log was emitted with the pool at
capacity. -/
def waitEvFull (cfg : Config) (evts : List Event) : Prop :=
  ∀ e ∈ evts, (∃ wtd, e.msg = EventMsg.waitTimeoutMsg wtd) →
    cfg.maxActiveLeases ≤ e.activeLeases

theorem queueFull_admitOne (cfg : Config) (t : Int) (acc : SimState) (j : JobInstance)
    (h : queueFull cfg acc) (he : waitEvFull cfg acc.events) :
    queueFull cfg (admitOne cfg t acc j) ∧
      waitEvFull cfg (admitOne cfg t acc j).events := by
  unfold admitOne
  by_cases hc : cfg.maxActiveLeases - acc.activeLeases > 0
  · rw [if_pos hc]
    constructor
    · intro hne
      have hle := h (by simpa using hne)
      show cfg.maxActiveLeases ≤ acc.activeLeases + 1
      omega
    · intro e hemem hwt
      rcases hwt with ⟨wtd, hwtd⟩
      simp only [List.mem_append] at hemem
      rcases hemem with h2 | h2
      · exact he e h2 ⟨wtd, hwtd⟩
      · exfalso
        by_cases hm : acc.activeLeases + 1 > cfg.maxActiveLeases
        · simp only [if_pos hm, List.mem_cons, List.mem_singleton,
            List.not_mem_nil, or_false] at h2
          rcases h2 with h3 | h3 <;> rw [h3] at hwtd <;> simp at hwtd
        · simp only [if_neg hm, List.mem_singleton] at h2
          rw [h2] at hwtd
          simp at hwtd
  · rw [if_neg hc]
    constructor
    · intro _
      show cfg.maxActiveLeases ≤ acc.activeLeases
      omega
    · intro e hemem hwt
      rcases hwt with ⟨wtd, hwtd⟩
      simp only [List.mem_append, List.mem_singleton] at hemem
      rcases hemem with h2 | h2
      · exact he e h2 ⟨wtd, hwtd⟩
      · rw [h2] at hwtd
        simp at hwtd

theorem queueFull_admission_foldl (cfg : Config) (t : Int) :
    ∀ (l : List JobInstance) (acc : SimState),
      queueFull cfg acc → waitEvFull cfg acc.events →
      queueFull cfg (l.foldl (admitOne cfg t) acc) ∧
        waitEvFull cfg (l.foldl (admitOne cfg t) acc).events := by
  intro l
  induction l with
  | nil => intro acc h he; exact ⟨h, he⟩
  | cons j l ih =>
    intro acc h he
    rw [List.foldl_cons]
    rcases queueFull_admitOne cfg t acc j h he with ⟨h2, he2⟩
    exact ih _ h2 he2

theorem queueFull_completionStep (cfg : Config) (t : Int) (acc : SimState)
    (j : JobInstance) (h : queueFull cfg acc) (he : waitEvFull cfg acc.events) :
    queueFull cfg (completionStep t acc j) ∧
      waitEvFull cfg (completionStep t acc j).events := by
  unfold completionStep
  by_cases hc : j.endTime ≤ t
  · rw [if_pos hc]
    cases hq : acc.waiting with
    | nil =>
      constructor
      · intro hne
        simp [hq] at hne
      · intro e hemem hwt
        simp only [List.mem_append, List.mem_singleton] at hemem
        rcases hemem with h2 | h2
        · exact he e h2 hwt
        · rw [h2] at hwt
          rcases hwt with ⟨wtd, hwtd⟩
          simp at hwtd
    | cons w ws =>
      constructor
      · intro hne
        have := h (by simp [hq])
        show cfg.maxActiveLeases ≤ acc.activeLeases - 1 + 1
        omega
      · intro e hemem hwt
        simp only [List.mem_append, List.mem_cons, List.mem_singleton,
          List.not_mem_nil, or_false] at hemem
        rcases hemem with h2 | h2 | h2
        · exact he e h2 hwt
        · rw [h2] at hwt
          rcases hwt with ⟨wtd, hwtd⟩
          simp at hwtd
        · rw [h2] at hwt
          rcases hwt with ⟨wtd, hwtd⟩
          simp at hwtd
  · rw [if_neg hc]
    exact ⟨h, he⟩

theorem queueFull_completion_foldl (cfg : Config) (t : Int) :
    ∀ (l : List JobInstance) (acc : SimState),
      queueFull cfg acc → waitEvFull cfg acc.events →
      queueFull cfg (l.foldl (completionStep t) acc) ∧
        waitEvFull cfg (l.foldl (completionStep t) acc).events := by
  intro l
  induction l with
  | nil => intro acc h he; exact ⟨h, he⟩
  | cons j l ih =>
    intro acc h he
    rw [List.foldl_cons]
    rcases queueFull_completionStep cfg t acc j h he with ⟨h2, he2⟩
    exact ih _ h2 he2

theorem queueFull_waitPhase (cfg : Config) (t : Int) (s : SimState)
    (h : queueFull cfg s) (he : waitEvFull cfg s.events) :
    queueFull cfg (waitTimeoutPhase cfg t s) ∧
      waitEvFull cfg (waitTimeoutPhase cfg t s).events := by
  rw [waitTimeoutPhase, waitTimeout_foldl]
  constructor
  · intro hne
    simp only at hne ⊢
    have hsw : s.waiting ≠ [] := by
      intro hnil
      rw [hnil] at hne
      simp at hne
    exact h hsw
  · intro e hemem hwt
    simp only [List.mem_append] at hemem
    rcases hemem with h2 | h2
    · exact he e h2 hwt
    · rcases List.mem_map.mp h2 with ⟨x, hx, rfl⟩
      have hsw : s.waiting ≠ [] := by
        intro hnil
        rw [hnil] at hx
        simp at hx
      simpa using h hsw

theorem queueFull_execPhase (cfg : Config) (t : Int) (s : SimState)
    (h : queueFull cfg s) (he : waitEvFull cfg s.events) :
    queueFull cfg (execTimeoutPhase cfg t s) ∧
      waitEvFull cfg (execTimeoutPhase cfg t s).events := by
  rw [execTimeoutPhase, execTimeout_foldl]
  constructor
  · intro hne
    simp only at hne ⊢
    exact h hne
  · intro e hemem hwt
    simp only [List.mem_append] at hemem
    rcases hemem with h2 | h2
    · exact he e h2 hwt
    · rcases List.mem_map.mp h2 with ⟨x, hx, rfl⟩
      rcases hwt with ⟨wtd, hwtd⟩
      simp at hwtd

theorem queueFull_tick (cfg : Config) (t : Int) (s : SimState)
    (h : queueFull cfg s) (he : waitEvFull cfg s.events) :
    queueFull cfg (tick cfg t s) ∧ waitEvFull cfg (tick cfg t s).events := by
  unfold tick
  have h1 : queueFull cfg (admissionPhase cfg t s) ∧
      waitEvFull cfg (admissionPhase cfg t s).events := by
    unfold admissionPhase
    exact queueFull_admission_foldl cfg t _ _ h he
  have h2 : queueFull cfg (completionPhase t (admissionPhase cfg t s)) ∧
      waitEvFull cfg (completionPhase t (admissionPhase cfg t s)).events := by
    unfold completionPhase
    exact queueFull_completion_foldl cfg t _ _ h1.1 h1.2
  have h3 := queueFull_waitPhase cfg t _ h2.1 h2.2
  exact queueFull_execPhase cfg t _ h3.1 h3.2

theorem queueFull_runSim (cfg : Config) :
    ∀ (fuel : Nat) (t : Int) (s : SimState),
      queueFull cfg s → waitEvFull cfg s.events →
      queueFull cfg (runSim cfg fuel t s) ∧
        waitEvFull cfg (runSim cfg fuel t s).events := by
  intro fuel
  induction fuel with
  | zero => intro t s h he; exact ⟨h, he⟩
  | succ n ih =>
    intro t s h he
    rw [runSim]
    by_cases h1 : t < cfg.simulationEnd ∨ s.active ≠ [] ∨ s.waiting ≠ []
    · rw [if_pos h1]
      by_cases h2 : (tick cfg t s).pending = [] ∧ (tick cfg t s).active = [] ∧
          (tick cfg t s).waiting = []
      · rw [if_pos h2]
        exact queueFull_tick cfg t s h he
      · rw [if_neg h2]
        rcases queueFull_tick cfg t s h he with ⟨h3, he3⟩
        exact ih (t + 5) (tick cfg t s) h3 he3
    · rw [if_neg h1]
      exact ⟨h, he⟩

/-- C10 counterexample: the claim's closing possibility — a waiting
instance timing out while free capacity exists — never happens in this
engine.  In every run, every wait-timeout event is emitted with
`activeLeases` at or beyond `maxActiveLeases`: execution timeouts free
no lease here, and whenever the queue is non-empty the pool is full. -/
theorem claim_C10_cex :
    ¬ ∃ (cfg : Config) (jobs : List JobInstance) (fuel : Nat) (e : Event),
        e ∈ (runSim cfg fuel 0 (initState jobs)).events ∧
        (∃ wtd, e.msg = EventMsg.waitTimeoutMsg wtd) ∧
        e.activeLeases < cfg.maxActiveLeases := by
  rintro ⟨cfg, jobs, fuel, e, hmem, hwt, hlt⟩
  have hrun := queueFull_runSim cfg fuel 0 (initState jobs)
    (by intro hne; simp [initState] at hne)
    (by intro e hmem2; simp [initState] at hmem2)
  have := hrun.2 e hmem hwt
  omega

/-- C10 (amended).  A waiting instance can acquire a lease only in the
completion phase, one promotion per completion (each completion step
appends either nothing, a lone `LeaseReleased`, or a `LeaseReleased`
immediately followed by the promotion `LeaseAcquired` at the same
timestamp); the admission, wait-timeout and execution-timeout phases
never produce promotion events; the execution-timeout phase frees no
lease at all (`activeLeases` and the queue are untouched); and
consequently every wait-timeout event in any run is emitted with the
pool at capacity — a waiting instance never times out while free
capacity exists. -/
theorem claim_C10_promotions (cfg : Config) :
    (∀ (t : Int) (s : SimState),
       (execTimeoutPhase cfg t s).activeLeases = s.activeLeases ∧
       (execTimeoutPhase cfg t s).waiting = s.waiting ∧
       afterWaitAcqIds (execTimeoutPhase cfg t s).events =
         afterWaitAcqIds s.events) ∧
    (∀ (t : Int) (s : SimState),
       afterWaitAcqIds (admissionPhase cfg t s).events = afterWaitAcqIds s.events ∧
       afterWaitAcqIds (waitTimeoutPhase cfg t s).events = afterWaitAcqIds s.events) ∧
    (∀ (t : Int) (acc : SimState) (j : JobInstance),
       ∃ evs : List Event, (completionStep t acc j).events = acc.events ++ evs ∧
         (evs = [] ∨
          (∃ r, evs = [r] ∧ r.type = EventType.leaseReleased) ∨
          (∃ r p, evs = [r, p] ∧ r.type = EventType.leaseReleased ∧
            r.time = p.time ∧ ∃ wtd, p.msg = EventMsg.acquiredAfterWait wtd))) ∧
    (∀ (jobs : List JobInstance) (fuel : Nat) (e : Event),
       e ∈ (runSim cfg fuel 0 (initState jobs)).events →
       (∃ wtd, e.msg = EventMsg.waitTimeoutMsg wtd) →
       cfg.maxActiveLeases ≤ e.activeLeases) := by
  refine ⟨?_, ?_, ?_, ?_⟩
  · intro t s
    refine ⟨?_, ?_, execPhase_afterWait cfg t s⟩
    · rw [execTimeoutPhase, execTimeout_foldl]
    · rw [execTimeoutPhase, execTimeout_foldl]
  · intro t s
    constructor
    · unfold admissionPhase
      rcases admission_foldl_fifo cfg t
          (s.pending.takeWhile (fun j => decide (j.startTime ≤ t)))
          { s with pending := s.pending.dropWhile (fun j => decide (j.startTime ≤ t)) }
        with ⟨d, _, he⟩
      exact he
    · exact waitPhase_afterWait cfg t s
  · intro t acc j
    unfold completionStep
    by_cases hc : j.endTime ≤ t
    · rw [if_pos hc]
      cases hq : acc.waiting with
      | nil =>
        refine ⟨[{ time := t, type := .leaseReleased, jobId := j.id,
                   activeLeases := acc.activeLeases - 1, msg := .releasedMsg,
                   isWarning := false }], by simp [hq], Or.inr (Or.inl ?_)⟩
        exact ⟨_, rfl, rfl⟩
      | cons w ws =>
        refine ⟨[{ time := t, type := .leaseReleased, jobId := j.id,
                   activeLeases := acc.activeLeases - 1, msg := .releasedMsg,
                   isWarning := false },
                 { time := t, type := .leaseAcquired, jobId := w.id,
                   activeLeases := acc.activeLeases - 1 + 1,
                   msg := .acquiredAfterWait w.leaseWaitTime,
                   isWarning := false }], by simp [hq], Or.inr (Or.inr ?_)⟩
        exact ⟨_, _, rfl, rfl, rfl, ⟨w.leaseWaitTime, rfl⟩⟩
    · rw [if_neg hc]
      exact ⟨[], by simp, Or.inl rfl⟩
  · intro jobs fuel e hmem hwt
    have hrun := queueFull_runSim cfg fuel 0 (initState jobs)
      (by intro hne; simp [initState] at hne)
      (by intro e hmem2; simp [initState] at hmem2)
    exact hrun.2 e hmem hwt

/-! ## Claim C7

`Run` (`simulator.go` lines 52-55) sorts the generated instances with
`sort.Slice(jobInstances, func(i, j int) bool { return
jobInstances[i].StartTime.Before(jobInstances[j].StartTime) })`.
`sort.Slice` is Go's pattern-defeating quicksort over a reflected
swapper (`src/sort/zsortfunc.go`, Go 1.19 and later), and its
documentation states that it is not guaranteed to be stable.  The
functions below transcribe that algorithm over an `Array JobInstance`
with the exact comparison `Run` passes; every Go `for`/`while` loop
becomes a fuel-indexed recursion (the fuel passed at each call site is
ample for the bounds involved, and index arithmetic stays non-negative
on every path the executions below take). -/

instance : Inhabited JobInstance :=
  ⟨{ id := 0, job := ⟨0⟩, startTime := 0, endTime := 0 }⟩

/-- The comparison closure `Run` passes to `sort.Slice`. -/
def goLess (d : Array JobInstance) (i j : Nat) : Bool :=
  decide ((d.get! i).startTime < (d.get! j).startTime)

def goSwap (d : Array JobInstance) (i j : Nat) : Array JobInstance :=
  d.swap! i j

/-- Inner loop of `insertionSort_func`. -/
def insertionInner (a : Nat) : Nat → Array JobInstance → Array JobInstance
  | 0, d => d
  | j + 1, d =>
    if j + 1 > a ∧ goLess d (j + 1) j then insertionInner a j (goSwap d (j + 1) j)
    else d

/-- `insertionSort_func(data, a, b)`. -/
def insertionSortGo (a b : Nat) (d : Array JobInstance) : Array JobInstance :=
  (List.range (b - (a + 1))).foldl (fun d k => insertionInner a (a + 1 + k) d) d

/-- `siftDown_func(data, lo, hi, first)` with explicit fuel. -/
def siftDownGo (first hi : Nat) : Nat → Nat → Array JobInstance → Array JobInstance
  | 0, _, d => d
  | fuel + 1, root, d =>
    let child := 2 * root + 1
    if child ≥ hi then d
    else
      let child := if child + 1 < hi ∧ goLess d (first + child) (first + child + 1)
        then child + 1 else child
      if ¬ goLess d (first + root) (first + child) then d
      else siftDownGo first hi fuel child (goSwap d (first + root) (first + child))

/-- `heapSort_func(data, a, b)`. -/
def heapSortGo (a b : Nat) (d : Array JobInstance) : Array JobInstance :=
  let hi := b - a
  let d := ((List.range ((hi - 1) / 2 + 1)).reverse).foldl
    (fun d i => siftDownGo a hi hi i d) d
  ((List.range hi).reverse).foldl
    (fun d i => siftDownGo a i i 0 (goSwap d a (a + i))) d

/-- `reverseRange_func(data, a, b)`. -/
def reverseRangeGo : Nat → Nat → Nat → Array JobInstance → Array JobInstance
  | 0, _, _, d => d
  | fuel + 1, i, j, d =>
    if i < j then reverseRangeGo fuel (i + 1) (j - 1) (goSwap d i j) else d

/-- First scan of `partialInsertionSort_func`: advance `i` over
non-descents. -/
def scanUp (b : Nat) : Nat → Nat → Array JobInstance → Nat
  | 0, i, _ => i
  | fuel + 1, i, d =>
    if i < b ∧ ¬ goLess d i (i - 1) then scanUp b fuel (i + 1) d else i

/-- Left shift of `partialInsertionSort_func` (its inner loop runs while
the absolute index `j` stays at least 1, as in the Go source). -/
def shiftLeftGo : Nat → Array JobInstance → Array JobInstance
  | 0, d => d
  | j + 1, d =>
    if ¬ goLess d (j + 1) j then d
    else shiftLeftGo j (goSwap d (j + 1) j)

/-- Right shift of `partialInsertionSort_func`. -/
def shiftRightGo (b : Nat) : Nat → Nat → Array JobInstance → Array JobInstance
  | 0, _, d => d
  | fuel + 1, j, d =>
    if j < b then
      if ¬ goLess d j (j - 1) then d
      else shiftRightGo b fuel (j + 1) (goSwap d j (j - 1))
    else d

/-- `partialInsertionSort_func(data, a, b)`: at most 5 adjacent
out-of-order pairs are examined; no shifting below 50 elements. -/
def pisLoop (a b : Nat) : Nat → Nat → Array JobInstance → Bool × Array JobInstance
  | 0, _, d => (false, d)
  | steps + 1, i, d =>
    let i := scanUp b b i d
    if i = b then (true, d)
    else if b - a < 50 then (false, d)
    else
      let d := goSwap d i (i - 1)
      let d := if i - a ≥ 2 then shiftLeftGo (i - 1) d else d
      let d := if b - i ≥ 2 then shiftRightGo b b (i + 1) d else d
      pisLoop a b steps i d

def partialInsertionSortGo (a b : Nat) (d : Array JobInstance) :
    Bool × Array JobInstance :=
  pisLoop a b 5 (a + 1) d

/-- The xorshift64 generator of `breakPatterns_func`. -/
def xorshiftNext (r : Nat) : Nat :=
  let m := 2 ^ 64
  let r := (r ^^^ (r <<< 13)) % m
  let r := (r ^^^ (r >>> 17)) % m
  (r ^^^ (r <<< 5)) % m

/-- `bits.Len` on a non-negative length. -/
def bitsLen (n : Nat) : Nat := if n = 0 then 0 else Nat.log2 n + 1

/-- `nextPowerOfTwo(length) = 1 << bits.Len(length)`. -/
def nextPowerOfTwoGo (length : Nat) : Nat := 2 ^ bitsLen length

/-- One swap of `breakPatterns_func`. -/
def breakOne (a length idx i : Nat) (r : Nat) (d : Array JobInstance) :
    Nat × Array JobInstance :=
  let r := xorshiftNext r
  let other := r &&& (nextPowerOfTwoGo length - 1)
  let other := if other ≥ length then other - length else other
  (r, goSwap d (idx - 1 + i) (a + other))

/-- `breakPatterns_func(data, a, b)`. -/
def breakPatternsGo (a b : Nat) (d : Array JobInstance) : Array JobInstance :=
  let length := b - a
  if length ≥ 8 then
    let idx := a + (length / 4) * 2 - 1
    let (r, d) := breakOne a length idx 0 length d
    let (r, d) := breakOne a length idx 1 r d
    (breakOne a length idx 2 r d).2
  else d

/-- `order2_func`: order two indices by their elements, counting swaps. -/
def order2Go (d : Array JobInstance) (a b sw : Nat) : Nat × Nat × Nat :=
  if goLess d b a then (b, a, sw + 1) else (a, b, sw)

/-- `median_func`. -/
def medianGo (d : Array JobInstance) (a b c sw : Nat) : Nat × Nat :=
  let (a, b, sw) := order2Go d a b sw
  let (b, _, sw) := order2Go d b c sw
  let (_, b, sw) := order2Go d a b sw
  (b, sw)

/-- `medianAdjacent_func`. -/
def medianAdjacentGo (d : Array JobInstance) (a sw : Nat) : Nat × Nat :=
  medianGo d (a - 1) a (a + 1) sw

inductive Hint where
  | unknown
  | increasing
  | decreasing
  deriving DecidableEq

/-- `choosePivot_func(data, a, b)`: median of three (ninther from 50
elements up), with the swap count deciding the hint. -/
def choosePivotGo (d : Array JobInstance) (a b : Nat) : Nat × Hint :=
  let l := b - a
  let i := a + l / 4 * 1
  let j := a + l / 4 * 2
  let k := a + l / 4 * 3
  let (j, sw) :=
    if l ≥ 8 then
      let (i, j, k, sw) :=
        if l ≥ 50 then
          let (i, sw) := medianAdjacentGo d i 0
          let (j, sw) := medianAdjacentGo d j sw
          let (k, sw) := medianAdjacentGo d k sw
          (i, j, k, sw)
        else (i, j, k, 0)
      medianGo d i j k sw
    else (j, 0)
  if sw = 0 then (j, Hint.increasing)
  else if sw = 12 then (j, Hint.decreasing)
  else (j, Hint.unknown)

/-- The increasing scan of `partition_func`: advance `i` while the
element is less than the pivot at `a`. -/
def scanR (a : Nat) : Nat → Nat → Nat → Array JobInstance → Nat
  | 0, i, _, _ => i
  | fuel + 1, i, j, d =>
    if i ≤ j ∧ goLess d i a then scanR a fuel (i + 1) j d else i

/-- The decreasing scan of `partition_func`: retreat `j` while the
element is not less than the pivot at `a`. -/
def scanL (a : Nat) : Nat → Nat → Nat → Array JobInstance → Nat
  | 0, _, j, _ => j
  | fuel + 1, i, j, d =>
    if i ≤ j ∧ ¬ goLess d j a then scanL a fuel i (j - 1) d else j

/-- The swap loop of `partition_func`. -/
def partLoop (a b : Nat) : Nat → Nat → Nat → Array JobInstance →
    Nat × Array JobInstance
  | 0, _, j, d => (j, d)
  | fuel + 1, i, j, d =>
    let i := scanR a b i j d
    let j := scanL a b i j d
    if i > j then (j, d)
    else partLoop a b fuel (i + 1) (j - 1) (goSwap d i j)

/-- `partition_func(data, a, b, pivot)`. -/
def partitionGo (a b pivot : Nat) (d : Array JobInstance) :
    Nat × Bool × Array JobInstance :=
  let d := goSwap d a pivot
  let i := a + 1
  let j := b - 1
  let i := scanR a b i j d
  let j := scanL a b i j d
  if i > j then (j, true, goSwap d j a)
  else
    let d := goSwap d i j
    let (j, d) := partLoop a b b (i + 1) (j - 1) d
    (j, false, goSwap d j a)

/-- The increasing scan of `partitionEqual_func`: advance `i` while the
pivot at `a` is not less than the element. -/
def scanREq (a : Nat) : Nat → Nat → Nat → Array JobInstance → Nat
  | 0, i, _, _ => i
  | fuel + 1, i, j, d =>
    if i ≤ j ∧ ¬ goLess d a i then scanREq a fuel (i + 1) j d else i

/-- The decreasing scan of `partitionEqual_func`: retreat `j` while the
pivot at `a` is less than the element. -/
def scanLEq (a : Nat) : Nat → Nat → Nat → Array JobInstance → Nat
  | 0, _, j, _ => j
  | fuel + 1, i, j, d =>
    if i ≤ j ∧ goLess d a j then scanLEq a fuel i (j - 1) d else j

/-- The swap loop of `partitionEqual_func`. -/
def partEqLoop (a b : Nat) : Nat → Nat → Nat → Array JobInstance →
    Nat × Array JobInstance
  | 0, i, _, d => (i, d)
  | fuel + 1, i, j, d =>
    let i := scanREq a b i j d
    let j := scanLEq a b i j d
    if i > j then (i, d)
    else partEqLoop a b fuel (i + 1) (j - 1) (goSwap d i j)

/-- `partitionEqual_func(data, a, b, pivot)`. -/
def partitionEqualGo (a b pivot : Nat) (d : Array JobInstance) :
    Nat × Array JobInstance :=
  let d := goSwap d a pivot
  partEqLoop a b b (a + 1) (b - 1) d

/-- `pdqsort_func(data, a, b, limit)`: the outer loop and the recursive
calls share one fuel; recursive calls restart with fresh
`wasBalanced`/`wasPartitioned`, exactly as the Go local variables do. -/
def pdqLoop : Nat → Nat → Nat → Nat → Bool → Bool → Array JobInstance →
    Array JobInstance
  | 0, _, _, _, _, _, d => d
  | fuel + 1, a, b, limit, wasBalanced, wasPartitioned, d =>
    let length := b - a
    if length ≤ 12 then insertionSortGo a b d
    else if limit = 0 then heapSortGo a b d
    else
      let dl := if ¬ wasBalanced then (breakPatternsGo a b d, limit - 1)
        else (d, limit)
      let d := dl.1
      let limit := dl.2
      let ph := choosePivotGo d a b
      let dph := if ph.2 = Hint.decreasing then
          (reverseRangeGo b (a) (b - 1) d, (b - 1) - (ph.1 - a), Hint.increasing)
        else (d, ph.1, ph.2)
      let d := dph.1
      let pivot := dph.2.1
      let hint := dph.2.2
      let pis := if wasBalanced ∧ wasPartitioned ∧ hint = Hint.increasing then
          partialInsertionSortGo a b d
        else (false, d)
      if pis.1 then pis.2
      else
        let d := pis.2
        if a > 0 ∧ ¬ goLess d (a - 1) pivot then
          let md := partitionEqualGo a b pivot d
          pdqLoop fuel md.1 b limit wasBalanced wasPartitioned md.2
        else
          let mad := partitionGo a b pivot d
          let mid := mad.1
          let wasPartitioned := mad.2.1
          let d := mad.2.2
          let leftLen := mid - a
          let rightLen := b - mid
          let balanceThreshold := length / 8
          let wasBalanced := decide (min leftLen rightLen ≥ balanceThreshold)
          if leftLen < rightLen then
            let d := pdqLoop fuel a mid limit true true d
            pdqLoop fuel (mid + 1) b limit wasBalanced wasPartitioned d
          else
            let d := pdqLoop fuel (mid + 1) b limit true true d
            pdqLoop fuel a mid limit wasBalanced wasPartitioned d

/-- The sort step of `Run` (`simulator.go` lines 52-55):
`sort.Slice(jobInstances, less)` = `pdqsort_func(lessSwap, 0, n,
bits.Len(n))`. -/
def sortInstances (l : List JobInstance) : List JobInstance :=
  (pdqLoop 1000 0 l.length (bitsLen l.length) true true l.toArray).toList

/-- Thirteen generated instances in generation order: all start at the
window origin except the one with id 11, which starts one minute
later.  Same-instant instances like these arise from release-triggered
jobs sharing a version. -/
def unstableInput : List JobInstance :=
  (List.range 13).map (fun i =>
    { id := i, job := ⟨60⟩, startTime := if i = 11 then 1 else 0,
      endTime := if i = 11 then 61 else 60 })

set_option maxRecDepth 100000 in
/-- C7.  The sort step of `Run` is not stable: on `unstableInput` the
embedded `sort.Slice` algorithm returns the twelve equal-`startTime`
instances in the order 6, 1, 2, 3, 4, 5, 0, 7, 8, 9, 10, 12 — the
partition step swaps the pivot (generation index 6) to the front — so
ties are not broken by original generation order, although the output
is sorted by `startTime`.  A stable sort (`sort.SliceStable`) would
return 0, 1, ..., 10, 12, 11. -/
theorem claim_C7_sort_not_stable :
    (sortInstances unstableInput).map JobInstance.id =
      [6, 1, 2, 3, 4, 5, 0, 7, 8, 9, 10, 12, 11] ∧
    ((sortInstances unstableInput).map JobInstance.startTime).Pairwise
      (fun a b => a ≤ b) ∧
    (unstableInput.map JobInstance.id = [0, 1, 2, 3, 4, 5, 6, 7, 8, 9, 10, 11, 12]) ∧
    ([6, 1, 2, 3, 4, 5, 0, 7, 8, 9, 10, 12, 11] ≠
      [0, 1, 2, 3, 4, 5, 6, 7, 8, 9, 10, 12, 11]) := by
  refine ⟨by decide, by decide, by decide, by decide⟩

end LeaseSim
